import Mathlib

/-!
Verification development for the task-dispatch engine of the repository
(`src/tasks/interpreter.py`, `src/tasks/dispatcher.py`).

The Python source is shallowly embedded: pure functions become Lean functions,
the dispatcher's mutable object state becomes an explicit `DState` record that
operations transform, `datetime.utcnow()` becomes an explicit `DateTime`
argument, and the asyncio queues become lists (front = next to be dequeued;
`put` appends at the back) together with an explicit `blocked` outcome for an
`await put` on a full bounded queue, which in asyncio suspends the caller
(`asyncio.QueueFull` is raised only by `put_nowait`, never by an awaited
`put`).

Python dicts that are iterated are embedded as insertion-ordered association
lists, mirroring the CPython ≥3.7 guarantee that iteration follows insertion
order.
-/

set_option autoImplicit false

namespace ProjectAgent

/-- Enum `TaskPriority` from `interpreter.py`. -/
inductive TaskPriority
  | CRITICAL
  | HIGH
  | MEDIUM
  | LOW
  deriving DecidableEq, Repr

/-- Enum `TaskStatus` from `interpreter.py`. -/
inductive TaskStatus
  | PENDING
  | QUEUED
  | IN_PROGRESS
  | COMPLETED
  | FAILED
  | CANCELLED
  deriving DecidableEq, Repr

/-- Enum `TaskType` from `interpreter.py`. -/
inductive TaskType
  | ADD_TEST
  | FIX_BUG
  | ADD_FEATURE
  | UPDATE_DOCS
  | REFACTOR
  | CODE_REVIEW
  | RUN_TESTS
  | DEPLOY
  | CREATE_PR
  | MERGE_PR
  | GENERAL
  deriving DecidableEq, Repr

/-- The `.value` string of each `TaskType` member. -/
def TaskType.value : TaskType → String
  | .ADD_TEST => "add_test"
  | .FIX_BUG => "fix_bug"
  | .ADD_FEATURE => "add_feature"
  | .UPDATE_DOCS => "update_docs"
  | .REFACTOR => "refactor"
  | .CODE_REVIEW => "code_review"
  | .RUN_TESTS => "run_tests"
  | .DEPLOY => "deploy"
  | .CREATE_PR => "create_pr"
  | .MERGE_PR => "merge_pr"
  | .GENERAL => "general"

/-- Values stored in the open `parameters` / `metadata` maps of a task.
Confidence scores are embedded as exact rationals (`pnum`). -/
inductive PyVal
  | pstr (s : String)
  | pint (i : Int)
  | pbool (b : Bool)
  | pnum (q : ℚ)
  deriving DecidableEq, Repr

/-- Calendar timestamp, standing for a Python `datetime` value
(as produced by `datetime.utcnow()`). -/
structure DateTime where
  year : ℕ
  month : ℕ
  day : ℕ
  hour : ℕ
  minute : ℕ
  second : ℕ
  deriving DecidableEq, Repr

/-- Field ranges guaranteed for any value returned by `datetime.utcnow()`. -/
def DateTime.valid (dt : DateTime) : Prop :=
  1 ≤ dt.year ∧ dt.year ≤ 9999 ∧ 1 ≤ dt.month ∧ dt.month ≤ 12 ∧
    1 ≤ dt.day ∧ dt.day ≤ 31 ∧ dt.hour ≤ 23 ∧ dt.minute ≤ 59 ∧ dt.second ≤ 59

instance (dt : DateTime) : Decidable dt.valid := by
  unfold DateTime.valid; infer_instance

/-- The `context` dict passed to the interpreter; only the keys
`"default_repo"` and `"repository"` are ever read by the source. `none`
models an absent key. -/
structure Ctx where
  defaultRepo : Option String
  repository : Option String
  deriving DecidableEq, Repr

/-- Python's `str.lower()` (ASCII case folding, which covers every
character the matching tables use). -/
def lowerStr (s : String) : String :=
  ⟨s.data.map Char.toLower⟩

/-- Helper for substring search: does `s` begin with `p`? -/
def begWith : List Char → List Char → Bool
  | _, [] => true
  | [], _ :: _ => false
  | b :: ss, a :: ps => a == b && begWith ss ps

/-- Python's `p in s` substring containment on the underlying characters. -/
def hasSub : List Char → List Char → Bool
  | s, p =>
    begWith s p ||
      (match s with
       | [] => false
       | _ :: t => hasSub t p)

/-- Python's `pattern in command` for strings. -/
def pyIn (pattern cmd : String) : Bool :=
  hasSub cmd.data pattern.data

/-- The class constant `TaskInterpreter.INTENT_PATTERNS`, in dict insertion
order. Each entry string is the verbatim Python pattern literal; the source
matches these with the substring operator `in`, not with `re`. -/
def INTENT_PATTERNS : List (TaskType × List String) :=
  [ (.ADD_TEST,
      [ "(?:add|create|write|implement)\\s+(?:a\\s+)?test"
      , "test\\s+(?:the\\s+)?(?:file|function|class|module)"
      , "(?:add|create)\\s+(?:unit\\s+)?test"
      , "write\\s+(?:unit\\s+)?test"
      , "spec" ])
  , (.FIX_BUG,
      [ "fix\\s+(?:the\\s+)?(?:bug|error|issue|problem)"
      , "resolve\\s+(?:the\\s+)?(?:bug|error|issue)"
      , "(?:debug|debugging)"
      , "repair\\s+(?:the\\s+)?" ])
  , (.ADD_FEATURE,
      [ "(?:add|create|implement|build)\\s+(?:a\\s+)?(?:new\\s+)?feature"
      , "(?:add|create|implement)\\s+(?:a\\s+)?(?:new\\s+)?function"
      , "(?:add|create|implement)\\s+(?:a\\s+)?(?:new\\s+)?endpoint"
      , "build\\s+(?:a\\s+)?(?:new\\s+)?"
      , "create\\s+(?:a\\s+)?(?:new\\s+)?" ])
  , (.UPDATE_DOCS,
      [ "(?:update|add|create|write)\\s+(?:the\\s+)?(?:project\\s+)?doc"
      , "(?:update|add|create)\\s+readme"
      , "(?:document|documenting)"
      , "(?:add|create)\\s+(?:some\\s+)?doc" ])
  , (.REFACTOR,
      [ "refactor"
      , "(?:clean|clean up|cleanup)\\s+(?:the\\s+)?(?:code)?"
      , "improve\\s+(?:the\\s+)?(?:code\\s+)?(?:quality)?"
      , "restructur"
      , "optimiz" ])
  , (.CODE_REVIEW,
      [ "(?:review|analyze|check|examine)\\s+(?:the\\s+)?(?:code|repo)"
      , "(?:perform|do)\\s+(?:a\\s+)?(?:code\\s+)?review"
      , "assess\\s+(?:the\\s+)?" ])
  , (.RUN_TESTS,
      [ "(?:run|execute|start)\\s+(?:the\\s+)?test"
      , "test\\s+(?:the\\s+)?(?:application|project|code)"
      , "pytest" ])
  , (.DEPLOY,
      [ "(?:deploy|deployment|release)"
      , "(?:push\\s+to|ship)"
      , "(?:put\\s+into|go\\s+live)" ])
  , (.CREATE_PR,
      [ "(?:create|make)\\s+(?:a\\s+)?(?:pull\\s+)?request"
      , "(?:create|make)\\s+(?:a\\s+)?pr"
      , "(?:submit|open)\\s+(?:a\\s+)?(?:pull\\s+)?request" ])
  , (.MERGE_PR,
      [ "(?:merge|combine|squash)\\s+(?:the\\s+)?(?:pr|pull\\s+request)"
      , "(?:merge|combine)\\s+(?:the\\s+)?(?:branch|code)" ]) ]

/-- The class constant `TaskInterpreter.PRIORITY_INDICATORS`, in dict
insertion order. -/
def PRIORITY_INDICATORS : List (TaskPriority × List String) :=
  [ (.CRITICAL, ["critical", "urgent", "asap", "immediately", "emergency"])
  , (.HIGH, ["important", "soon", "high priority", "must"])
  , (.MEDIUM, ["should", "would be nice", "when possible", "medium"])
  , (.LOW, ["low priority", "eventually", "sometime", "nice to have"]) ]

/-- Inner loop of `TaskInterpreter._detect_intent`: scan the table in order
and return the first type one of whose patterns occurs (as a substring) in
the command. -/
def detectIntentGo (command : String) : List (TaskType × List String) → TaskType
  | [] => .GENERAL
  | (tt, pats) :: rest =>
    if pats.any (fun p => pyIn p command) then tt else detectIntentGo command rest

/-- `TaskInterpreter._detect_intent` (the argument is already lowercased by
`interpret`). -/
def detectIntent (command : String) : TaskType :=
  detectIntentGo command INTENT_PATTERNS

/-- Inner loop of `TaskInterpreter._detect_priority`. -/
def detectPriorityGo (commandLower : String) :
    List (TaskPriority × List String) → TaskPriority
  | [] => .MEDIUM
  | (pr, inds) :: rest =>
    if inds.any (fun i => pyIn i commandLower) then pr
    else detectPriorityGo commandLower rest

/-- `TaskInterpreter._detect_priority`: lowercases its argument again, scans
the indicator table in order, defaults to MEDIUM. -/
def detectPriority (command : String) : TaskPriority :=
  detectPriorityGo (lowerStr command) PRIORITY_INDICATORS

/-- Python `INTENT_PATTERNS.get(t, [])`. -/
def patsFor (tt : TaskType) : List String :=
  match INTENT_PATTERNS.find? (fun e => e.1 == tt) with
  | some e => e.2
  | none => []

/-- `TaskInterpreter._calculate_confidence`: 0.5 for GENERAL, otherwise a
base of 0.7 raised by 0.1 for every pattern of the detected type occurring
in the command, capped at 0.95.  Scores are exact rationals. -/
def calcConfidence (command : String) (detectedType : TaskType) : ℚ :=
  if detectedType = .GENERAL then 0.5
  else
    min 0.95
      ((patsFor detectedType).foldl
        (fun b p => if pyIn p command then b + 0.1 else b) 0.7)

/-- Number of patterns of `tt` that occur as substrings of `command`. -/
def matchCount (command : String) (tt : TaskType) : ℕ :=
  (patsFor tt).countP (fun p => pyIn p command)

/-- Character class `[a-zA-Z0-9_-]` used by the repository patterns. -/
def repoChar (c : Char) : Bool :=
  c.isAlpha || c.isDigit || c == '_' || c == '-'

/-- Character class `[a-zA-Z0-9/_.-]` used by the file-path patterns. -/
def fileChar (c : Char) : Bool :=
  repoChar c || c == '/' || c == '.'

/-- Python regex whitespace on the ASCII range. -/
def isSpaceCh (c : Char) : Bool :=
  c == ' ' || c == '\t' || c == '\n' || c == '\x0d' || c.toNat == 11 || c.toNat == 12

/-- Leftmost occurrence of `run1/run2` (maximal `[a-zA-Z0-9_-]` runs around a
slash), the effect of `re.search` with the first repository pattern
`(?:repo(?:sitory)?\s+)?([a-zA-Z0-9_-]+/[a-zA-Z0-9_-]+)`: the optional
lead-in never changes the captured group. -/
def findSlashTok : List Char → Option (List Char)
  | [] => none
  | c :: rest =>
    if repoChar c then
      let r1 := List.takeWhile repoChar (c :: rest)
      match List.dropWhile repoChar (c :: rest) with
      | '/' :: a2 =>
        let r2 := List.takeWhile repoChar a2
        if r2.isEmpty then findSlashTok rest else some (r1 ++ '/' :: r2)
      | _ => findSlashTok rest
    else findSlashTok rest

/-- Attempt of `key\s+([cls]+)` at the start of `s`; on success returns the
captured token and the remainder after it.  `ci` selects the `IGNORECASE`
flag (the keys themselves are written lowercase). -/
def tryKeyAt (cls : Char → Bool) (ci : Bool) (k : List Char) (s : List Char) :
    Option (List Char × List Char) :=
  let sCmp := if ci then s.map Char.toLower else s
  if begWith sCmp k then
    let after := s.drop k.length
    let sp := after.takeWhile isSpaceCh
    if sp.isEmpty then none
    else
      let tok := (after.drop sp.length).takeWhile cls
      if tok.isEmpty then none
      else some (tok, (after.drop sp.length).drop tok.length)
  else none

/-- First key of `keys` whose `tryKeyAt` succeeds at this position
(regex alternation order). -/
def tryKeysAt (cls : Char → Bool) (ci : Bool) (keys : List (List Char))
    (s : List Char) : Option (List Char × List Char) :=
  match keys with
  | [] => none
  | k :: ks =>
    match tryKeyAt cls ci k s with
    | some r => some r
    | none => tryKeysAt cls ci ks s

/-- All non-overlapping, leftmost matches of `(?:k1|k2|…)\s+([cls]+)`
(the semantics of `re.findall`); the fuel argument bounds the scan. -/
def keysScanGo (cls : Char → Bool) (ci : Bool) (keys : List (List Char)) :
    ℕ → List Char → List (List Char)
  | 0, _ => []
  | _, [] => []
  | fuel + 1, c :: rest =>
    match tryKeysAt cls ci keys (c :: rest) with
    | some (tok, after) => tok :: keysScanGo cls ci keys fuel after
    | none => keysScanGo cls ci keys fuel rest

/-- All matches of `(?:k1|k2|…)\s+([cls]+)` in `s`. -/
def keysScan (cls : Char → Bool) (ci : Bool) (keys : List (List Char))
    (s : List Char) : List (List Char) :=
  keysScanGo cls ci keys s.length s

/-- Leftmost match only (the semantics of `re.search`). -/
def keysSearch (cls : Char → Bool) (ci : Bool) (keys : List (List Char))
    (s : List Char) : Option (List Char) :=
  (keysScan cls ci keys s).head?

/-- Python `s.split('/')[0]`: the segment before the first slash. -/
def splitHeadSlash (s : String) : String :=
  ⟨s.data.takeWhile (fun c => !(c == '/'))⟩

/-- Qualification step of `_extract_repository`: a captured name without a
slash is prefixed with the owner segment of the context's default
repository, when one is present. -/
def qualifyRepo (repo : String) (context : Option Ctx) : String :=
  match context with
  | some c =>
    match c.defaultRepo with
    | some d => splitHeadSlash d ++ "/" ++ repo
    | none => repo
  | none => repo

/-- `TaskInterpreter._extract_repository`: three patterns in order
(`owner/name` token, `for X`/`in X`, `project X`), then the context's
default repository as fallback. -/
def extractRepository (command : String) (context : Option Ctx) : Option String :=
  let cs := command.data
  match findSlashTok cs with
  | some tok => some ⟨tok⟩
  | none =>
    match keysSearch repoChar true [['f', 'o', 'r'], ['i', 'n']] cs with
    | some tok => some (qualifyRepo ⟨tok⟩ context)
    | none =>
      match keysSearch repoChar true [['p', 'r', 'o', 'j', 'e', 'c', 't']] cs with
      | some tok => some (qualifyRepo ⟨tok⟩ context)
      | none =>
        match context with
        | some c => c.defaultRepo
        | none => none

/-- Largest `j ≥ 1` such that `ext` occurs in `run` at offset `j`; returns
the greedy match `run[0..j+|ext|)` and the remainder of the run.  This is
how `[cls]+` followed by a literal extension backtracks. -/
def longestExtPre (ext run : List Char) : Option (List Char × List Char) :=
  match ((List.range run.length).filter
      (fun j => 1 ≤ j && begWith (run.drop j) ext)).getLast? with
  | some j => some (run.take (j + ext.length), run.drop (j + ext.length))
  | none => none

/-- All matches of `([a-zA-Z0-9/_.-]+\.<ext>)` under `re.findall`:
non-overlapping, leftmost, greedy within each maximal `fileChar` run. -/
def extScanGo (ext : List Char) : ℕ → List Char → List (List Char)
  | 0, _ => []
  | _, [] => []
  | fuel + 1, c :: rest =>
    if fileChar c then
      let run := List.takeWhile fileChar (c :: rest)
      let after := List.dropWhile fileChar (c :: rest)
      match longestExtPre ext run with
      | some (m, restRun) => m :: extScanGo ext fuel (restRun ++ after)
      | none => extScanGo ext fuel after
    else extScanGo ext fuel rest

/-- All matches of the extension pattern in `s`. -/
def extScan (ext : List Char) (s : List Char) : List (List Char) :=
  extScanGo ext s.length s

/-- Python `list(set(files))` followed by `[:10]`.  CPython iterates a set
in hash-table order; the embedding fixes the deterministic first-occurrence
order, which no claim depends on. -/
def pyDedup (files : List String) : List String :=
  files.foldl (fun acc f => if f ∈ acc then acc else acc ++ [f]) []

/-- `TaskInterpreter._extract_file_paths`: six `findall` passes, concatenated,
deduplicated, capped at ten entries. -/
def extractFilePaths (command : String) : List String :=
  let cs := command.data
  let files :=
    (extScan ['.', 'p', 'y'] cs) ++
    (extScan ['.', 'j', 's'] cs) ++
    (extScan ['.', 't', 's'] cs) ++
    (extScan ['.', 'g', 'o'] cs) ++
    (keysScan fileChar true [['i', 'n']] cs) ++
    (keysScan fileChar true [['f', 'i', 'l', 'e']] cs)
  (pyDedup (files.map fun l => (⟨l⟩ : String))).take 10

/-- Numeric value of a digit run (`int(...)` on a captured `\d+` group). -/
def digitsToNat (ds : List Char) : ℕ :=
  ds.foldl (fun a c => 10 * a + (c.toNat - 48)) 0

/-- Attempt of `(?:pr|pull request)\s*(?:#)?(\d+)` at this position. -/
def tryPrAt (s : List Char) : Option ℕ :=
  let step := fun (k : List Char) =>
    if begWith s k then
      let a := (s.drop k.length).dropWhile isSpaceCh
      let a2 := match a with
        | '#' :: t => t
        | _ => a
      let ds := a2.takeWhile Char.isDigit
      if ds.isEmpty then none else some (digitsToNat ds)
    else none
  match step ['p', 'r'] with
  | some n => some n
  | none => step ['p', 'u', 'l', 'l', ' ', 'r', 'e', 'q', 'u', 'e', 's', 't']

/-- Leftmost match of the PR-number pattern (`re.search`, case-sensitive). -/
def prSearch : List Char → Option ℕ
  | [] => none
  | c :: rest =>
    match tryPrAt (c :: rest) with
    | some n => some n
    | none => prSearch rest

/-- Attempt of `(\d+)\s+(?:files|repos|items)` at this position; the optional
`(?:limit\s+)?` lead-in of the source pattern never changes the group. -/
def tryLimitAt (s : List Char) : Option ℕ :=
  let ds := s.takeWhile Char.isDigit
  if ds.isEmpty then none
  else
    let a := s.drop ds.length
    let sp := a.takeWhile isSpaceCh
    if sp.isEmpty then none
    else
      let a2 := a.drop sp.length
      if begWith a2 ['f', 'i', 'l', 'e', 's'] || begWith a2 ['r', 'e', 'p', 'o', 's'] ||
          begWith a2 ['i', 't', 'e', 'm', 's'] then
        some (digitsToNat ds)
      else none

/-- Leftmost match of the limit pattern (`re.search`, case-sensitive). -/
def limitSearch : List Char → Option ℕ
  | [] => none
  | c :: rest =>
    match tryLimitAt (c :: rest) with
    | some n => some n
    | none => limitSearch rest

/-- `TaskInterpreter._extract_parameters`: four independent matches, inserted
in the source's key order.  The force pattern `(?:force|forcefully|now)`
reduces to substring containment of `force` or `now`. -/
def extractParameters (command : String) (_taskType : TaskType) :
    List (String × PyVal) :=
  let cs := command.data
  let p0 : List (String × PyVal) := []
  let p1 := match keysSearch repoChar false
      [['b', 'r', 'a', 'n', 'c', 'h'], ['f', 'e', 'a', 't', 'u', 'r', 'e']] cs with
    | some tok => p0 ++ [("branch_name", PyVal.pstr ⟨tok⟩)]
    | none => p0
  let p2 := match prSearch cs with
    | some n => p1 ++ [("pr_number", PyVal.pint n)]
    | none => p1
  let p3 := match limitSearch cs with
    | some n => p2 ++ [("limit", PyVal.pint n)]
    | none => p2
  if pyIn "force" command || pyIn "now" command then
    p3 ++ [("force", PyVal.pbool true)]
  else p3

/-- The `title_prefixes` map of `_generate_title`. -/
def titleLabel : TaskType → String
  | .ADD_TEST => "Add tests"
  | .FIX_BUG => "Fix bug"
  | .ADD_FEATURE => "Add feature"
  | .UPDATE_DOCS => "Update documentation"
  | .REFACTOR => "Refactor code"
  | .CODE_REVIEW => "Review code"
  | .RUN_TESTS => "Run tests"
  | .DEPLOY => "Deploy"
  | .CREATE_PR => "Create PR"
  | .MERGE_PR => "Merge PR"
  | .GENERAL => "Execute task"

/-- `TaskInterpreter._generate_title`: label plus the first fifty characters
of the raw command. -/
def generateTitle (command : String) (taskType : TaskType) : String :=
  titleLabel taskType ++ ": " ++ ⟨command.data.take 50⟩

/-- The `descriptions` templates of `_generate_description`. -/
def descSeed (command : String) : TaskType → String
  | .ADD_TEST => "Add tests as requested: " ++ command
  | .FIX_BUG => "Fix bug as requested: " ++ command
  | .ADD_FEATURE => "Add feature as requested: " ++ command
  | .UPDATE_DOCS => "Update documentation as requested: " ++ command
  | .REFACTOR => "Refactor as requested: " ++ command
  | .CODE_REVIEW => "Review code as requested: " ++ command
  | .RUN_TESTS => "Run tests as requested: " ++ command
  | .DEPLOY => "Deploy as requested: " ++ command
  | .CREATE_PR => "Create pull request as requested: " ++ command
  | .MERGE_PR => "Merge pull request as requested: " ++ command
  | .GENERAL => "Execute: " ++ command

/-- `TaskInterpreter._generate_description`: template text, with the
context's `repository` value appended when that key is present. -/
def generateDescription (command : String) (taskType : TaskType)
    (context : Option Ctx) : String :=
  let base := descSeed command taskType
  match context with
  | some c =>
    match c.repository with
    | some r => base ++ " in repository: " ++ r
    | none => base
  | none => base

/-- Result record `ParsedTask` from `interpreter.py`. -/
structure ParsedTask where
  taskType : TaskType
  title : String
  description : String
  priority : TaskPriority
  repository : Option String
  targetFiles : List String
  parameters : List (String × PyVal)
  confidence : ℚ
  deriving DecidableEq, Repr

/-- `TaskInterpreter.interpret`: the composition of the detection and
extraction helpers, exactly as the source sequences them. -/
def interpret (command : String) (context : Option Ctx) : ParsedTask :=
  let commandLower := lowerStr command
  let taskType := detectIntent commandLower
  let priority := detectPriority commandLower
  let repository := extractRepository command context
  let targetFiles := extractFilePaths command
  let parameters := extractParameters command taskType
  let title := generateTitle command taskType
  let description := generateDescription command taskType context
  let confidence := calcConfidence commandLower taskType
  { taskType := taskType
  , title := title
  , description := description
  , priority := priority
  , repository := repository
  , targetFiles := targetFiles
  , parameters := parameters
  , confidence := confidence }

/-- Digit character for a value below ten. -/
def digitCh (d : ℕ) : Char :=
  Char.ofNat (48 + d)

/-- Fuel-driven base-ten rendering, most significant digit first; the
accumulator collects already-rendered low digits. -/
def toDigitsAux : ℕ → ℕ → List Char → List Char
  | 0, _, acc => acc
  | fuel + 1, n, acc =>
    if n < 10 then digitCh n :: acc
    else toDigitsAux fuel (n / 10) (digitCh (n % 10) :: acc)

/-- Decimal rendering of a natural number (`str(n)` / `"%d" % n`). -/
def natStr (n : ℕ) : List Char :=
  toDigitsAux (n + 1) n []

/-- Zero-padded decimal rendering to width `w` (`f"{n:0wd}"`): wider numbers
are rendered unpadded. -/
def padNum (w n : ℕ) : List Char :=
  List.replicate (w - (natStr n).length) '0' ++ natStr n

/-- Accumulation step when reading a decimal string back into a number. -/
def dstep (a : ℕ) (c : Char) : ℕ :=
  10 * a + (c.toNat - 48)

/-- Numeric value read back from a digit string, used to show the id counter
field is recoverable (hence injective). -/
def charsVal (s : List Char) : ℕ :=
  s.foldl dstep 0

/-- Rendering of `datetime.utcnow().strftime('%Y%m%d%H%M%S')`. -/
def fmt14 (dt : DateTime) : List Char :=
  padNum 4 dt.year ++ padNum 2 dt.month ++ padNum 2 dt.day ++
    padNum 2 dt.hour ++ padNum 2 dt.minute ++ padNum 2 dt.second

/-- The twenty characters of a task id before the counter field. -/
def idHead (dt : DateTime) : List Char :=
  ("task-").data ++ fmt14 dt ++ ['-']

/-- Characters of `f"task-{utcnow:%Y%m%d%H%M%S}-{counter:04d}"`. -/
def taskIdChars (dt : DateTime) (counter : ℕ) : List Char :=
  idHead dt ++ padNum 4 counter

/-- Record `Task` from `interpreter.py`. -/
structure Task where
  id : String
  title : String
  description : String
  taskType : TaskType
  priority : TaskPriority
  status : TaskStatus
  repository : Option String
  targetFiles : List String
  command : String
  parameters : List (String × PyVal)
  createdAt : DateTime
  startedAt : Option DateTime
  completedAt : Option DateTime
  result : Option String
  error : Option String
  retries : ℕ := 0
  maxRetries : ℕ := 3
  metadata : List (String × PyVal) := []
  deriving DecidableEq, Repr

/-- `TaskInterpreter.create_task`.  The interpreter's only mutable state is
`_task_counter`, passed in and returned explicitly; `now` stands for the
two `datetime.utcnow()` calls (id formatting and `created_at`), which the
source performs within the same function body. -/
def create_task (taskCounter : ℕ) (now : DateTime) (command : String)
    (context : Option Ctx) : Task × ℕ :=
  let parsed := interpret command context
  let counter := taskCounter + 1
  let taskId : String := ⟨taskIdChars now counter⟩
  ({ id := taskId
   , title := parsed.title
   , description := parsed.description
   , taskType := parsed.taskType
   , priority := parsed.priority
   , status := .PENDING
   , repository := parsed.repository
   , targetFiles := parsed.targetFiles
   , command := command
   , parameters := parsed.parameters
   , createdAt := now
   , startedAt := none
   , completedAt := none
   , result := none
   , error := none
   , retries := 0
   , maxRetries := 3
   , metadata := [("confidence", PyVal.pnum parsed.confidence)] }, counter)

/-- Anchored decision procedure for the spec pattern
`task-<14 digits>-<4 digits>` (total length 24). -/
def matchesIdPattern (s : List Char) : Bool :=
  s.length == 24 && s.take 5 == ("task-").data &&
    ((s.drop 5).take 14).all Char.isDigit && (s.drop 19).take 1 == ['-'] &&
    (s.drop 20).all Char.isDigit

/-- Stateful wrapper of `TaskInterpreter.interpret`: the method reads only
class constants and its arguments, so the embedding threads the instance
state (`_task_counter`) through unchanged. -/
def interpretS (taskCounter : ℕ) (command : String) (context : Option Ctx) :
    ParsedTask × ℕ :=
  (interpret command context, taskCounter)

/-- Enum `QueueType` from `dispatcher.py`. -/
inductive QueueType
  | GENERAL
  | CRITICAL
  | BACKGROUND
  | REPO_SPECIFIC
  deriving DecidableEq, Repr, Fintype

/-- The `.value` string of each `QueueType` member. -/
def QueueType.value : QueueType → String
  | .GENERAL => "general"
  | .CRITICAL => "critical"
  | .BACKGROUND => "background"
  | .REPO_SPECIFIC => "repo_specific"

/-- Outcome of one invocation of a registered handler coroutine: a returned
value (`none` models a falsy result such as `None`) or a raised exception
carrying its text. -/
inductive HandlerResult
  | ok (res : Option String)
  | raise (err : String)

/-- Record `WorkerInfo` from `dispatcher.py`. -/
structure WorkerInfo where
  id : String
  name : String
  status : String
  currentTask : Option String
  tasksCompleted : ℕ
  tasksFailed : ℕ
  startedAt : DateTime

/-- Record `QueueStats` from `dispatcher.py`. -/
structure QueueStats where
  queueName : String
  totalTasks : ℕ
  pendingTasks : ℕ
  processingTasks : ℕ
  completedTasks : ℕ
  failedTasks : ℕ
  avgProcessingTime : ℚ

/-- Mutable state of a `TaskDispatcher` instance.  Queues are lists with the
front element the next to be dequeued; `put` appends at the back.  A
registered handler is embedded as a function from the task's current retry
count (its per-task invocation index) to that invocation's outcome, which
captures an arbitrary stateful async callable as the dispatcher observes
it.  `worker_tasks` (asyncio handles) has no observable content and is
omitted. -/
structure DState where
  queues : QueueType → List Task
  repoQueues : List (String × List Task)
  workers : List WorkerInfo
  maxWorkers : ℕ
  running : Bool
  handlers : TaskType → Option (ℕ → HandlerResult)
  completedTasks : List Task
  failedTasks : List Task

/-- Capacity of each shared queue (`asyncio.Queue(maxsize=100)`). -/
def sharedMaxsize : ℕ := 100

/-- Capacity of each per-repository queue (`asyncio.Queue(maxsize=50)`). -/
def repoMaxsize : ℕ := 50

/-- Pointwise update of the shared-queue map. -/
def updQueue (qs : QueueType → List Task) (qt : QueueType) (l : List Task) :
    QueueType → List Task :=
  fun q => if q = qt then l else qs q

/-- Lookup in the `repo_queues` dict. -/
def getRepoQ (m : List (String × List Task)) (r : String) : Option (List Task) :=
  (m.find? (fun e => e.1 == r)).map (fun e => e.2)

/-- Insertion-order-preserving write to the `repo_queues` dict. -/
def setRepoQ (m : List (String × List Task)) (r : String) (l : List Task) :
    List (String × List Task) :=
  match m with
  | [] => [(r, l)]
  | (k, v) :: rest => if k == r then (k, l) :: rest else (k, v) :: setRepoQ rest r l

/-- Outcome of `TaskDispatcher.enqueue`.  `blocked` is an `await put` on a
full bounded queue: asyncio suspends the caller until space appears, and
never raises `QueueFull` from an awaited `put` (only `put_nowait` does), so
the source's `except asyncio.QueueFull: return False` branch is
unreachable and `ret false` never occurs. -/
inductive EnqResult
  | ret (b : Bool) (st : DState)
  | blocked

/-- Shared-queue branch of `enqueue`. -/
def enqShared (st : DState) (t : Task) (qt : QueueType) : EnqResult :=
  if (st.queues qt).length < sharedMaxsize then
    .ret true { st with queues := updQueue st.queues qt (st.queues qt ++ [t]) }
  else .blocked

/-- Repository-queue branch of `enqueue`, with lazy queue creation. -/
def enqRepo (st : DState) (t : Task) (r : String) : EnqResult :=
  let q := (getRepoQ st.repoQueues r).getD []
  if q.length < repoMaxsize then
    .ret true { st with repoQueues := setRepoQ st.repoQueues r (q ++ [t]) }
  else .blocked

/-- `TaskDispatcher.enqueue`: routes to the per-repository queue exactly when
`queue_type == REPO_SPECIFIC` and `repo_name` is truthy (a non-empty
string), otherwise to the shared queue of `queue_type`. -/
def enqueue (st : DState) (t : Task) (qt : QueueType) (repoName : Option String) :
    EnqResult :=
  match repoName with
  | some r =>
    if qt == .REPO_SPECIFIC && !(r == "") then enqRepo st t r
    else enqShared st t qt
  | none => enqShared st t qt

/-- `TaskDispatcher.dequeue`: front of the shared queue, or `none` after the
one-second timeout when the queue is empty. -/
def dequeue (st : DState) (qt : QueueType) : Option (Task × DState) :=
  match st.queues qt with
  | [] => none
  | t :: rest => some (t, { st with queues := updQueue st.queues qt rest })

/-- Outcome of `TaskDispatcher.process_task`: the returned boolean, the task
value after mutation, and the dispatcher state — or `blocked` when the
re-enqueue of a retried task suspends on a full GENERAL queue. -/
inductive ProcResult
  | done (success : Bool) (t : Task) (st : DState)
  | blocked

/-- Python `str(result) if result else "Completed successfully"`: a falsy
handler result (`None` or the empty string) is replaced by the default
text. -/
def resultStr : Option String → String
  | some s => if s == "" then "Completed successfully" else s
  | none => "Completed successfully"

/-- `TaskDispatcher.process_task`. -/
def process_task (st : DState) (now : DateTime) (t0 : Task) : ProcResult :=
  let t1 := { t0 with status := .IN_PROGRESS, startedAt := some now }
  match st.handlers t1.taskType with
  | none =>
    let t2 := { t1 with
      error := some ("No handler for task type: " ++ t1.taskType.value)
      status := .FAILED }
    .done false t2 { st with failedTasks := st.failedTasks ++ [t2] }
  | some beh =>
    match beh t1.retries with
    | .ok res =>
      let t2 := { t1 with
        status := .COMPLETED
        completedAt := some now
        result := some (resultStr res) }
      .done true t2 { st with completedTasks := st.completedTasks ++ [t2] }
    | .raise e =>
      let t2 := { t1 with status := .FAILED, error := some e, retries := t1.retries + 1 }
      if t2.retries < t2.maxRetries then
        let t3 := { t2 with status := .QUEUED }
        match enqueue st t3 .GENERAL none with
        | .ret _ st' => .done false t3 st'
        | .blocked => .blocked
      else .done false t2 { st with failedTasks := st.failedTasks ++ [t2] }

/-- Default priority order of `get_next_task`. -/
def defaultPriorityOrder : List QueueType := [.CRITICAL, .GENERAL, .BACKGROUND]

/-- Scanning loop of `get_next_task`. -/
def getNextGo : DState → List QueueType → Option Task × DState
  | st, [] => (none, st)
  | st, qt :: rest =>
    match dequeue st qt with
    | some (t, st') => (some t, st')
    | none => getNextGo st rest

/-- `TaskDispatcher.get_next_task`: `priority or [CRITICAL, GENERAL,
BACKGROUND]` — `None` and the empty list are both falsy and select the
default order. -/
def get_next_task (st : DState) (priority : Option (List QueueType)) :
    Option Task × DState :=
  let p := match priority with
    | none => defaultPriorityOrder
    | some [] => defaultPriorityOrder
    | some l => l
  getNextGo st p

/-- Monotone linearization of a calendar timestamp, abstracting the
`total_seconds()` of a `datetime` difference; only the unread
`avg_processing_time` statistic consumes it. -/
def dtLin (dt : DateTime) : ℤ :=
  ((((dt.year * 12 + dt.month) * 31 + dt.day) * 24 + dt.hour) * 60 + dt.minute) * 60
    + dt.second

/-- `TaskDispatcher.get_queue_stats`.  Note that `completed` and `failed`
are filtered from the dispatcher-wide history lists, not from per-queue
records. -/
def get_queue_stats (st : DState) (qt : QueueType) : QueueStats :=
  let q := st.queues qt
  let completed := st.completedTasks.filter (fun t => t.status == .COMPLETED)
  let failed := st.failedTasks.filter (fun t => t.status == .FAILED)
  let times : List ℚ := completed.filterMap (fun t =>
    match t.startedAt, t.completedAt with
    | some a, some b => some (((dtLin b - dtLin a : ℤ) : ℚ))
    | _, _ => none)
  let avg : ℚ := if times.isEmpty then 0 else times.sum / times.length
  { queueName := qt.value
  , totalTasks := q.length + completed.length + failed.length
  , pendingTasks := q.length
  , processingTasks := (st.workers.filter (fun w =>
      match w.currentTask with
      | some s => !(s == "")
      | none => false)).length
  , completedTasks := completed.length
  , failedTasks := failed.length
  , avgProcessingTime := avg }

/-- Drain loop of `get_pending_tasks`: pop from the front while the queue is
non-empty and the per-queue buffer holds fewer than `limit` tasks. -/
def drainLoop (limit : ℕ) : List Task → List Task → List Task × List Task
  | [], tmp => ([], tmp)
  | t :: rest, tmp =>
    if tmp.length < limit then drainLoop limit rest (tmp ++ [t])
    else (t :: rest, tmp)

/-- Iteration order of `for queue_type in QueueType` (declaration order). -/
def allQueueTypes : List QueueType := [.GENERAL, .CRITICAL, .BACKGROUND, .REPO_SPECIFIC]

/-- Per-queue pass of `get_pending_tasks`: drain up to `limit` tasks, then
put every drained task back at the tail of the same queue.  The put-back
cannot block (the drain just freed the space); the source spells it
`await q.put(task)` inside a non-async `def`, a slip embedded here with
its evident intent. -/
def gptGo (limit : ℕ) : DState → List Task → List QueueType → List Task × DState
  | st, acc, [] => (acc, st)
  | st, acc, qt :: rest =>
    let p := drainLoop limit (st.queues qt) []
    gptGo limit { st with queues := updQueue st.queues qt (p.1 ++ p.2) } (acc ++ p.2) rest

/-- `TaskDispatcher.get_pending_tasks`. -/
def get_pending_tasks (st : DState) (limit : ℕ) : List Task × DState :=
  let p := gptGo limit st [] allQueueTypes
  (p.1.take limit, p.2)

/-- Dispatcher state right after `__init__` with the given handler registry
installed through `register_handler` (last registration per type wins,
embedded as the final map). -/
def initState (handlers : TaskType → Option (ℕ → HandlerResult)) : DState :=
  { queues := fun _ => []
  , repoQueues := []
  , workers := []
  , maxWorkers := 5
  , running := false
  , handlers := handlers
  , completedTasks := []
  , failedTasks := [] }

/-- Atomic dispatcher events for trace reasoning: an external `enqueue` call
(shared queues, as in `enqueue_batch`) and one worker round — `dequeue`
followed by `process_task` on the obtained task, as in `worker_loop`. -/
inductive Op
  | enq (t : Task) (qt : QueueType)
  | procFrom (qt : QueueType) (now : DateTime)

/-- Effect of one event; `none` marks a trace that suspends on a full queue
and therefore never reaches the observation point. -/
def applyOp (st : DState) : Op → Option DState
  | .enq t qt =>
    match enqueue st t qt none with
    | .ret _ st' => some st'
    | .blocked => none
  | .procFrom qt now =>
    match dequeue st qt with
    | none => some st
    | some (t, st') =>
      match process_task st' now t with
      | .done _ _ st'' => some st''
      | .blocked => none

/-- Run a sequence of dispatcher events. -/
def runTrace : DState → List Op → Option DState
  | st, [] => some st
  | st, op :: rest =>
    match applyOp st op with
    | some st' => runTrace st' rest
    | none => none

/-! Lemmas about decimal rendering, supporting the task-id analysis. -/

theorem toDigitsAux_acc (fuel : ℕ) : ∀ (n : ℕ) (acc : List Char),
    toDigitsAux fuel n acc = toDigitsAux fuel n [] ++ acc := by
  induction fuel with
  | zero => intro n acc; simp [toDigitsAux]
  | succ f ih =>
    intro n acc
    by_cases h : n < 10
    · simp [toDigitsAux, h]
    · simp only [toDigitsAux, if_neg h]
      rw [ih (n / 10) (digitCh (n % 10) :: acc), ih (n / 10) [digitCh (n % 10)],
        List.append_assoc]
      rfl

theorem toDigitsAux_fuel (f1 : ℕ) : ∀ (f2 n : ℕ) (acc : List Char),
    n < 10 ^ f1 → n < 10 ^ f2 → 0 < f1 → 0 < f2 →
    toDigitsAux f1 n acc = toDigitsAux f2 n acc := by
  induction f1 with
  | zero => intro _ _ _ _ _ h1 _; exact absurd h1 (lt_irrefl 0)
  | succ g1 ih =>
    intro f2 n acc hb1 hb2 _ hf2
    obtain ⟨g2, rfl⟩ : ∃ g2, f2 = g2 + 1 := ⟨f2 - 1, (Nat.succ_pred_eq_of_pos hf2).symm⟩
    by_cases h : n < 10
    · simp [toDigitsAux, h]
    · simp only [toDigitsAux, if_neg h]
      have h10 : 10 ≤ n := le_of_not_lt h
      have hg1 : 0 < g1 := by
        rcases Nat.eq_zero_or_pos g1 with h0 | h0
        · subst h0; simp at hb1; omega
        · exact h0
      have hg2 : 0 < g2 := by
        rcases Nat.eq_zero_or_pos g2 with h0 | h0
        · subst h0; simp at hb2; omega
        · exact h0
      have hd1 : n / 10 < 10 ^ g1 := by
        rw [Nat.div_lt_iff_lt_mul (by norm_num : (0:ℕ) < 10)]
        calc n < 10 ^ (g1 + 1) := hb1
        _ = 10 ^ g1 * 10 := by ring
      have hd2 : n / 10 < 10 ^ g2 := by
        rw [Nat.div_lt_iff_lt_mul (by norm_num : (0:ℕ) < 10)]
        calc n < 10 ^ (g2 + 1) := hb2
        _ = 10 ^ g2 * 10 := by ring
      exact ih g2 (n / 10) _ hd1 hd2 hg1 hg2

theorem natStr_lt10 {n : ℕ} (h : n < 10) : natStr n = [digitCh n] := by
  simp [natStr, toDigitsAux, h]

theorem natStr_ge10 {n : ℕ} (h : 10 ≤ n) :
    natStr n = natStr (n / 10) ++ [digitCh (n % 10)] := by
  have hfuel : ∀ m : ℕ, m < 10 ^ m := by
    intro m
    rcases Nat.eq_zero_or_pos m with h0 | h0
    · subst h0; norm_num
    · exact Nat.lt_pow_self (by norm_num) m
  unfold natStr
  have hn : n + 1 = n + 1 := rfl
  rw [show toDigitsAux (n + 1) n [] =
      toDigitsAux n (n / 10) [digitCh (n % 10)] by
    simp [toDigitsAux, Nat.not_lt.mpr h]]
  rw [toDigitsAux_acc]
  congr 1
  apply toDigitsAux_fuel
  · calc n / 10 ≤ n := Nat.div_le_self n 10
    _ < 10 ^ n := hfuel n
  · calc n / 10 < 10 ^ (n / 10) := hfuel (n / 10)
    _ ≤ 10 ^ (n / 10 + 1) := Nat.pow_le_pow_right (by norm_num) (Nat.le_succ _)
  · omega
  · omega

theorem digitCh_toNat {d : ℕ} (h : d < 10) : (digitCh d).toNat = 48 + d := by
  interval_cases d <;> decide

theorem digitCh_isDigit {d : ℕ} (h : d < 10) : (digitCh d).isDigit = true := by
  interval_cases d <;> decide

theorem natStr_length_le : ∀ (n w : ℕ), n < 10 ^ w → 0 < w →
    (natStr n).length ≤ w := by
  intro n
  induction n using Nat.strong_induction_on with
  | _ n ih =>
    intro w hb hw
    by_cases h : n < 10
    · rw [natStr_lt10 h]; simpa using hw
    · have h10 : 10 ≤ n := le_of_not_lt h
      rw [natStr_ge10 h10]
      obtain ⟨v, rfl⟩ : ∃ v, w = v + 1 := ⟨w - 1, (Nat.succ_pred_eq_of_pos hw).symm⟩
      have hv : 0 < v := by
        rcases Nat.eq_zero_or_pos v with h0 | h0
        · subst h0; simp at hb; omega
        · exact h0
      have hd : n / 10 < 10 ^ v := by
        rw [Nat.div_lt_iff_lt_mul (by norm_num : (0:ℕ) < 10)]
        calc n < 10 ^ (v + 1) := hb
        _ = 10 ^ v * 10 := by ring
      have := ih (n / 10) (Nat.div_lt_self (by omega) (by norm_num)) v hd hv
      simp only [List.length_append, List.length_singleton]
      omega

theorem natStr_digits : ∀ (n : ℕ), ∀ c ∈ natStr n, c.isDigit = true := by
  intro n
  induction n using Nat.strong_induction_on with
  | _ n ih =>
    intro c hc
    by_cases h : n < 10
    · rw [natStr_lt10 h] at hc
      simp at hc
      subst hc
      exact digitCh_isDigit h
    · have h10 : 10 ≤ n := le_of_not_lt h
      rw [natStr_ge10 h10] at hc
      rcases List.mem_append.mp hc with h1 | h1
      · exact ih (n / 10) (Nat.div_lt_self (by omega) (by norm_num)) c h1
      · simp at h1
        subst h1
        exact digitCh_isDigit (Nat.mod_lt n (by norm_num))

theorem natStr_foldl : ∀ (n a : ℕ),
    (natStr n).foldl dstep a = a * 10 ^ (natStr n).length + n := by
  intro n
  induction n using Nat.strong_induction_on with
  | _ n ih =>
    intro a
    by_cases h : n < 10
    · rw [natStr_lt10 h]
      simp [dstep, digitCh_toNat h]
      ring
    · have h10 : 10 ≤ n := le_of_not_lt h
      rw [natStr_ge10 h10]
      rw [List.foldl_append]
      simp only [List.foldl_cons, List.foldl_nil]
      rw [ih (n / 10) (Nat.div_lt_self (by omega) (by norm_num)) a]
      simp only [List.length_append, List.length_singleton]
      rw [dstep, digitCh_toNat (Nat.mod_lt n (by norm_num))]
      have hmod : 48 + n % 10 - 48 = n % 10 := by omega
      rw [hmod]
      have hdm : 10 * (n / 10) + n % 10 = n := Nat.div_add_mod n 10
      ring_nf
      omega

theorem foldl_zeros : ∀ (k : ℕ), (List.replicate k '0').foldl dstep 0 = 0 := by
  intro k
  induction k with
  | zero => rfl
  | succ m ih => simpa [List.replicate_succ, dstep] using ih

theorem charsVal_padNum (w n : ℕ) : charsVal (padNum w n) = n := by
  unfold charsVal padNum
  rw [List.foldl_append, foldl_zeros, natStr_foldl]
  simp

theorem padNum_length {w n : ℕ} (hb : n < 10 ^ w) (hw : 0 < w) :
    (padNum w n).length = w := by
  unfold padNum
  have := natStr_length_le n w hb hw
  simp only [List.length_append, List.length_replicate]
  omega

theorem padNum_digits (w n : ℕ) : ∀ c ∈ padNum w n, c.isDigit = true := by
  intro c hc
  unfold padNum at hc
  rcases List.mem_append.mp hc with h1 | h1
  · have := List.eq_of_mem_replicate h1
    subst this
    decide
  · exact natStr_digits n c h1

theorem fmt14_length {dt : DateTime} (h : dt.valid) : (fmt14 dt).length = 14 := by
  obtain ⟨h1, h2, h3, h4, h5, h6, h7, h8, h9⟩ := h
  unfold fmt14
  rw [List.length_append, List.length_append, List.length_append,
    List.length_append, List.length_append,
    padNum_length (show dt.year < 10 ^ 4 by omega) (by norm_num),
    padNum_length (show dt.month < 10 ^ 2 by omega) (by norm_num),
    padNum_length (show dt.day < 10 ^ 2 by omega) (by norm_num),
    padNum_length (show dt.hour < 10 ^ 2 by omega) (by norm_num),
    padNum_length (show dt.minute < 10 ^ 2 by omega) (by norm_num),
    padNum_length (show dt.second < 10 ^ 2 by omega) (by norm_num)]

theorem fmt14_digits (dt : DateTime) : ∀ c ∈ fmt14 dt, c.isDigit = true := by
  intro c hc
  unfold fmt14 at hc
  simp only [List.mem_append] at hc
  rcases hc with ((((h | h) | h) | h) | h) | h <;> exact padNum_digits _ _ c h

theorem idHead_length {dt : DateTime} (h : dt.valid) : (idHead dt).length = 20 := by
  unfold idHead
  rw [List.length_append, List.length_append, fmt14_length h]
  rfl

theorem taskIdChars_drop20 {dt : DateTime} (c : ℕ) (h : dt.valid) :
    (taskIdChars dt c).drop 20 = padNum 4 c := by
  unfold taskIdChars
  rw [show (20 : ℕ) = (idHead dt).length from (idHead_length h).symm, List.drop_left]

theorem taskIdChars_shape (dt : DateTime) (c : ℕ) :
    taskIdChars dt c = ("task-").data ++ (fmt14 dt ++ (['-'] ++ padNum 4 c)) := by
  simp [taskIdChars, idHead, List.append_assoc]

theorem matchesIdPattern_taskId {dt : DateTime} {c : ℕ}
    (h : dt.valid) (hc : c < 10 ^ 4) :
    matchesIdPattern (taskIdChars dt c) = true := by
  have hf : (fmt14 dt).length = 14 := fmt14_length h
  have hp : (padNum 4 c).length = 4 := padNum_length hc (by norm_num)
  have hshape := taskIdChars_shape dt c
  have hlen : (taskIdChars dt c).length = 24 := by
    rw [hshape]
    simp [hf, hp]
  have htake5 : (taskIdChars dt c).take 5 = ("task-").data := by
    rw [hshape]
    exact List.take_left' rfl
  have hdrop5 : (taskIdChars dt c).drop 5 = fmt14 dt ++ (['-'] ++ padNum 4 c) := by
    rw [hshape]
    exact List.drop_left' rfl
  have htake14 : ((taskIdChars dt c).drop 5).take 14 = fmt14 dt := by
    rw [hdrop5]
    exact List.take_left' hf
  have hdrop19 : (taskIdChars dt c).drop 19 = ['-'] ++ padNum 4 c := by
    rw [show (19 : ℕ) = 5 + 14 by norm_num, ← List.drop_drop, hdrop5]
    exact List.drop_left' hf
  have hdrop20 : (taskIdChars dt c).drop 20 = padNum 4 c := by
    rw [show (20 : ℕ) = 19 + 1 by norm_num, ← List.drop_drop, hdrop19]
    rfl
  have hall14 : (((taskIdChars dt c).drop 5).take 14).all Char.isDigit = true := by
    rw [htake14]
    exact List.all_eq_true.mpr (fmt14_digits dt)
  have hall4 : ((taskIdChars dt c).drop 20).all Char.isDigit = true := by
    rw [hdrop20]
    exact List.all_eq_true.mpr (padNum_digits 4 c)
  simp [matchesIdPattern, hlen, htake5, hall14, hdrop19, hall4]

/-- Sample timestamp used by concrete evaluations. -/
def cNow : DateTime := ⟨2026, 10, 12, 9, 30, 0⟩

/-! Characterization of `process_task`, one lemma per control path. -/

theorem process_task_no_handler_eq (st : DState) (now : DateTime) (t0 : Task)
    (hh : st.handlers t0.taskType = none) :
    process_task st now t0 = .done false
      { t0 with
        status := .FAILED
        startedAt := some now
        error := some ("No handler for task type: " ++ t0.taskType.value) }
      { st with failedTasks := st.failedTasks ++
          [{ t0 with
             status := .FAILED
             startedAt := some now
             error := some ("No handler for task type: " ++ t0.taskType.value) }] } := by
  simp only [process_task, hh]

theorem process_task_ok_eq (st : DState) (now : DateTime) (t0 : Task)
    (beh : ℕ → HandlerResult) (r : Option String)
    (hh : st.handlers t0.taskType = some beh) (hb : beh t0.retries = .ok r) :
    process_task st now t0 = .done true
      { t0 with
        status := .COMPLETED
        startedAt := some now
        completedAt := some now
        result := some (resultStr r) }
      { st with completedTasks := st.completedTasks ++
          [{ t0 with
             status := .COMPLETED
             startedAt := some now
             completedAt := some now
             result := some (resultStr r) }] } := by
  simp only [process_task, hh, hb]

theorem process_task_raise_requeue_eq (st : DState) (now : DateTime) (t0 : Task)
    (beh : ℕ → HandlerResult) (e : String)
    (hh : st.handlers t0.taskType = some beh) (hb : beh t0.retries = .raise e)
    (hlt : t0.retries + 1 < t0.maxRetries)
    (hcap : (st.queues .GENERAL).length < sharedMaxsize) :
    process_task st now t0 = .done false
      { t0 with
        status := .QUEUED
        startedAt := some now
        error := some e
        retries := t0.retries + 1 }
      { st with queues := updQueue st.queues .GENERAL (st.queues .GENERAL ++
          [{ t0 with
             status := .QUEUED
             startedAt := some now
             error := some e
             retries := t0.retries + 1 }]) } := by
  simp only [process_task, hh, hb, enqueue, enqShared, if_pos hlt, if_pos hcap]

theorem process_task_raise_final_eq (st : DState) (now : DateTime) (t0 : Task)
    (beh : ℕ → HandlerResult) (e : String)
    (hh : st.handlers t0.taskType = some beh) (hb : beh t0.retries = .raise e)
    (hge : ¬ t0.retries + 1 < t0.maxRetries) :
    process_task st now t0 = .done false
      { t0 with
        status := .FAILED
        startedAt := some now
        error := some e
        retries := t0.retries + 1 }
      { st with failedTasks := st.failedTasks ++
          [{ t0 with
             status := .FAILED
             startedAt := some now
             error := some e
             retries := t0.retries + 1 }] } := by
  simp only [process_task, hh, hb, if_neg hge]

theorem process_task_raise_blocked_eq (st : DState) (now : DateTime) (t0 : Task)
    (beh : ℕ → HandlerResult) (e : String)
    (hh : st.handlers t0.taskType = some beh) (hb : beh t0.retries = .raise e)
    (hlt : t0.retries + 1 < t0.maxRetries)
    (hfull : ¬ (st.queues .GENERAL).length < sharedMaxsize) :
    process_task st now t0 = .blocked := by
  simp only [process_task, hh, hb, enqueue, enqShared, if_pos hlt, if_neg hfull]

/-- Concrete task value used by the closed evaluations. -/
def sampleTask : Task :=
  { id := "task-20260101000000-0001"
  , title := "Execute task: noop"
  , description := "Execute: noop"
  , taskType := .GENERAL
  , priority := .MEDIUM
  , status := .PENDING
  , repository := none
  , targetFiles := []
  , command := "noop"
  , parameters := []
  , createdAt := ⟨2026, 1, 1, 0, 0, 0⟩
  , startedAt := none
  , completedAt := none
  , result := none
  , error := none
  , retries := 0
  , maxRetries := 3
  , metadata := [] }

/-- Dispatcher state whose GENERAL queue is at capacity. -/
def fullGeneralState : DState :=
  { initState (fun _ => none) with
    queues := fun qt => if qt = .GENERAL then List.replicate 100 sampleTask else [] }

/-- C1: the claim says `enqueue` on a full queue returns false without
blocking, and this matches both the spec and the source's own
`except asyncio.QueueFull: return False` handler — but the source awaits
`Queue.put`, which on a full bounded queue suspends the caller and never
raises `QueueFull`, so the call blocks instead of returning false.  The
embedding of `enqueue` at a full GENERAL queue therefore evaluates to
`blocked`, refuting "returns false" and exhibiting the code bug. -/
theorem c1_enqueue_full_blocks :
    enqueue fullGeneralState sampleTask .GENERAL none = .blocked := by
  rfl

/-- C2: the claim says a command containing the FIX_BUG trigger phrase
"fix the bug" is interpreted as FIX_BUG.  The source stores its patterns
as regex literals but tests them with the substring operator
(`if pattern in command`), so `"fix the bug"` — which contains no literal
occurrence of any pattern string such as
`fix\s+(?:the\s+)?(?:bug|error|issue|problem)` — falls through every table
entry and is classified GENERAL: evaluating the embedding at the failing
input exhibits the code bug. -/
theorem c2_fix_the_bug_misclassified :
    detectIntent (lowerStr "fix the bug") = TaskType.GENERAL ∧
    (interpret "fix the bug" none).taskType = TaskType.GENERAL := by
  exact ⟨rfl, rfl⟩

/-- C4: a task whose type has no registered handler is terminally FAILED by
`process_task` with the diagnostic error text, the return value false, and
retries left at 0; it is appended to the failed history and no queue
(shared or per-repository) is touched, so it is never retried. -/
theorem c4_missing_handler_terminal (st : DState) (now : DateTime) (t : Task)
    (hh : st.handlers t.taskType = none) (hr : t.retries = 0) :
    ∃ t' st', process_task st now t = .done false t' st' ∧
      t'.status = .FAILED ∧ t'.retries = 0 ∧
      t'.error = some ("No handler for task type: " ++ t.taskType.value) ∧
      st'.failedTasks = st.failedTasks ++ [t'] ∧
      (∀ qt, st'.queues qt = st.queues qt) ∧
      st'.repoQueues = st.repoQueues ∧
      st'.completedTasks = st.completedTasks := by
  refine ⟨_, _, process_task_no_handler_eq st now t hh,
    rfl, ?_, rfl, rfl, fun _ => rfl, rfl, rfl⟩
  exact hr

/-- Witness for C4 at a concrete dispatcher with an empty registry. -/
theorem c4_missing_handler_terminal_witness :
    ∃ t' st', process_task (initState (fun _ => none)) cNow sampleTask =
        .done false t' st' ∧
      t'.status = .FAILED ∧ t'.retries = 0 ∧
      t'.error = some ("No handler for task type: " ++ sampleTask.taskType.value) ∧
      st'.failedTasks = (initState (fun _ => none)).failedTasks ++ [t'] ∧
      (∀ qt, st'.queues qt = (initState (fun _ => none)).queues qt) ∧
      st'.repoQueues = (initState (fun _ => none)).repoQueues ∧
      st'.completedTasks = (initState (fun _ => none)).completedTasks :=
  c4_missing_handler_terminal (initState (fun _ => none)) cNow sampleTask rfl rfl

/-- C9: `interpret` is pure.  The source method reads only its arguments and
class constants — it never touches `self._task_counter` or any other
mutable attribute — so its stateful embedding `interpretS` returns a value
independent of the instance state and leaves that state unchanged; two
invocations with equal arguments yield equal `ParsedTask` values. -/
theorem c9_interpret_pure (s1 s2 : ℕ) (cmd : String) (ctx : Option Ctx) :
    (interpretS s1 cmd ctx).1 = (interpretS s2 cmd ctx).1 ∧
    (interpretS s1 cmd ctx).2 = s1 ∧
    (interpretS s1 cmd ctx).1 = interpret cmd ctx :=
  ⟨rfl, rfl, rfl⟩

/-! Confidence-score analysis (C7). -/

theorem conf_foldl (cl : String) : ∀ (pats : List String) (b : ℚ),
    pats.foldl (fun b p => if pyIn p cl then b + 0.1 else b) b
      = b + (pats.countP (fun p => pyIn p cl) : ℚ) / 10 := by
  intro pats
  induction pats with
  | nil => intro b; simp
  | cons p rest ih =>
    intro b
    simp only [List.foldl_cons, List.countP_cons]
    by_cases h : pyIn p cl
    · rw [if_pos h, ih, if_pos h]
      push_cast
      ring_nf
    · rw [if_neg h, ih, if_neg h]
      norm_num

theorem detGo_found (cl : String) : ∀ (tbl : List (TaskType × List String)),
    detectIntentGo cl tbl ≠ .GENERAL →
    ∃ pr ∈ tbl, pr.1 = detectIntentGo cl tbl ∧
      pr.2.any (fun p => pyIn p cl) = true := by
  intro tbl
  induction tbl with
  | nil => intro h; exact absurd rfl h
  | cons a rest ih =>
    obtain ⟨tt, pats⟩ := a
    intro h
    by_cases ha : pats.any (fun p => pyIn p cl) = true
    · refine ⟨(tt, pats), List.mem_cons_self _ _, ?_, ha⟩
      simp only [detectIntentGo, if_pos ha]
    · have hgo : detectIntentGo cl ((tt, pats) :: rest) = detectIntentGo cl rest := by
        simp only [detectIntentGo, if_neg ha]
      rw [hgo] at h ⊢
      obtain ⟨pr, hm, he, hany⟩ := ih h
      exact ⟨pr, List.mem_cons_of_mem _ hm, he, hany⟩

theorem find_of_mem_nodup : ∀ (tbl : List (TaskType × List String))
    (pr : TaskType × List String), (tbl.map Prod.fst).Nodup → pr ∈ tbl →
    tbl.find? (fun e => e.1 == pr.1) = some pr := by
  intro tbl
  induction tbl with
  | nil => intro pr _ hm; exact absurd hm (List.not_mem_nil pr)
  | cons a rest ih =>
    intro pr hnd hm
    have hnd2 : a.1 ∉ rest.map Prod.fst ∧ (rest.map Prod.fst).Nodup := by
      rw [List.map_cons, List.nodup_cons] at hnd
      exact hnd
    rcases List.mem_cons.mp hm with h | h
    · subst h
      simp [List.find?]
    · have hne : a.1 ≠ pr.1 := by
        intro he
        exact hnd2.1 (he ▸ List.mem_map_of_mem Prod.fst h)
      have hbeq : (a.1 == pr.1) = false := beq_eq_false_iff_ne.mpr hne
      simp only [List.find?, hbeq]
      exact ih pr hnd2.2 h

theorem matchCount_pos (cl : String) (h : detectIntent cl ≠ .GENERAL) :
    1 ≤ matchCount cl (detectIntent cl) := by
  obtain ⟨pr, hmem, heq, hany⟩ := detGo_found cl INTENT_PATTERNS h
  have hnd : (INTENT_PATTERNS.map Prod.fst).Nodup := by decide
  have hf := find_of_mem_nodup INTENT_PATTERNS pr hnd hmem
  unfold matchCount patsFor detectIntent
  rw [← heq, hf]
  obtain ⟨p, hp, hpy⟩ := List.any_eq_true.mp hany
  exact List.countP_pos_iff.mpr ⟨p, hp, hpy⟩

theorem calcConfidence_not_general (cl : String) (h : detectIntent cl ≠ .GENERAL) :
    calcConfidence cl (detectIntent cl)
      = min 0.95 (0.7 + (matchCount cl (detectIntent cl) : ℚ) / 10) := by
  unfold calcConfidence
  rw [if_neg h, conf_foldl]
  rfl

/-- C7 (amended): `interpret`'s confidence is exactly 0.5 for GENERAL;
otherwise it is 0.7 plus 0.1 for EVERY pattern of the detected type that
occurs in the lowercased command — including the first, so at least 0.8 —
capped at 0.95; in all cases it lies in [0, 1].  (The claim as stated
counts only matches beyond the first.) -/
theorem c7_confidence_amended (cmd : String) (ctx : Option Ctx) :
    (interpret cmd ctx).confidence
        = calcConfidence (lowerStr cmd) (detectIntent (lowerStr cmd)) ∧
    (detectIntent (lowerStr cmd) = .GENERAL →
      (interpret cmd ctx).confidence = 0.5) ∧
    (detectIntent (lowerStr cmd) ≠ .GENERAL →
      1 ≤ matchCount (lowerStr cmd) (detectIntent (lowerStr cmd)) ∧
      (interpret cmd ctx).confidence = min 0.95
        (0.7 + 0.1 * (matchCount (lowerStr cmd) (detectIntent (lowerStr cmd)) : ℚ)) ∧
      (0.8 : ℚ) ≤ (interpret cmd ctx).confidence) ∧
    (0 : ℚ) ≤ (interpret cmd ctx).confidence ∧
    (interpret cmd ctx).confidence ≤ 1 := by
  have hc : (interpret cmd ctx).confidence
      = calcConfidence (lowerStr cmd) (detectIntent (lowerStr cmd)) := rfl
  by_cases h : detectIntent (lowerStr cmd) = .GENERAL
  · have h05 : (interpret cmd ctx).confidence = 0.5 := by
      rw [hc]
      unfold calcConfidence
      rw [if_pos h]
    refine ⟨hc, fun _ => h05, fun hn => absurd h hn, ?_, ?_⟩
    · rw [h05]; norm_num
    · rw [h05]; norm_num
  · have hm := matchCount_pos (lowerStr cmd) h
    have hval : (interpret cmd ctx).confidence = min 0.95
        (0.7 + (matchCount (lowerStr cmd) (detectIntent (lowerStr cmd)) : ℚ) / 10) := by
      rw [hc, calcConfidence_not_general _ h]
    have hcast : (1 : ℚ) ≤ (matchCount (lowerStr cmd) (detectIntent (lowerStr cmd)) : ℚ) := by
      exact_mod_cast hm
    have hge : (0.8 : ℚ) ≤ (interpret cmd ctx).confidence := by
      rw [hval]
      apply le_min
      · norm_num
      · linarith
    have hle : (interpret cmd ctx).confidence ≤ 0.95 := by
      rw [hval]; exact min_le_left _ _
    refine ⟨hc, fun hg => absurd hg h, fun _ => ⟨hm, ?_, hge⟩, by linarith, by linarith⟩
    rw [hval]
    congr 1
    ring

/-- C7 counterexample: "refactor code" matches exactly one REFACTOR pattern
(the literal "refactor"), so the claim's formula 0.7 + 0.1·(matches − 1)
predicts 0.7, while the code computes 0.8 (0.1 is added for the first
match as well). -/
theorem c7_confidence_counterexample :
    detectIntent (lowerStr "refactor code") = TaskType.REFACTOR ∧
    matchCount (lowerStr "refactor code") TaskType.REFACTOR = 1 ∧
    (interpret "refactor code" none).confidence = 0.8 ∧
    (0.8 : ℚ) ≠ 0.7 + 0.1 * ((1 : ℚ) - 1) := by
  have hne : detectIntent (lowerStr "refactor code") ≠ .GENERAL := by decide
  have h2 := calcConfidence_not_general (lowerStr "refactor code") hne
  have h3 : matchCount (lowerStr "refactor code")
      (detectIntent (lowerStr "refactor code")) = 1 := by decide
  refine ⟨rfl, by decide, ?_, by norm_num⟩
  rw [show (interpret "refactor code" none).confidence
    = calcConfidence (lowerStr "refactor code")
        (detectIntent (lowerStr "refactor code")) from rfl, h2, h3]
  norm_num [min_def]

/-- Witness for C7 at the concrete command "refactor code". -/
theorem c7_confidence_witness :
    1 ≤ matchCount (lowerStr "refactor code") (detectIntent (lowerStr "refactor code")) ∧
    (interpret "refactor code" none).confidence = min 0.95
      (0.7 + 0.1 *
        (matchCount (lowerStr "refactor code") (detectIntent (lowerStr "refactor code")) : ℚ)) := by
  have h := (c7_confidence_amended "refactor code" none).2.2.1 (by decide)
  exact ⟨h.1, h.2.1⟩

/-- C6 (amended): `create_task` mints `task-<14 digits>-<suffix>` where the
suffix is the zero-padded counter — exactly four digits while the counter
is at most 9999, and as many digits as the counter needs afterwards (the
claim's anchored 4-digit pattern fails from the 10000th task on); the task
always carries status PENDING, retries 0, max_retries 3, and the parsed
confidence in its metadata, the counter is incremented per call, and
creations with different counter values yield distinct ids. -/
theorem c6_create_task_amended (st1 st2 : ℕ) (dt1 dt2 : DateTime)
    (cmd1 cmd2 : String) (ctx1 ctx2 : Option Ctx)
    (h1 : dt1.valid) (h2 : dt2.valid) :
    ((create_task st1 dt1 cmd1 ctx1).1.status = .PENDING ∧
     (create_task st1 dt1 cmd1 ctx1).1.retries = 0 ∧
     (create_task st1 dt1 cmd1 ctx1).1.maxRetries = 3 ∧
     (create_task st1 dt1 cmd1 ctx1).1.metadata =
       [("confidence", PyVal.pnum (interpret cmd1 ctx1).confidence)] ∧
     (create_task st1 dt1 cmd1 ctx1).2 = st1 + 1) ∧
    ((create_task st1 dt1 cmd1 ctx1).1.id.data = idHead dt1 ++ padNum 4 (st1 + 1) ∧
     (idHead dt1).length = 20 ∧
     (∀ ch ∈ padNum 4 (st1 + 1), ch.isDigit = true) ∧
     4 ≤ (padNum 4 (st1 + 1)).length) ∧
    (st1 + 1 ≤ 9999 →
      matchesIdPattern ((create_task st1 dt1 cmd1 ctx1).1.id.data) = true) ∧
    (st1 ≠ st2 →
      (create_task st1 dt1 cmd1 ctx1).1.id ≠ (create_task st2 dt2 cmd2 ctx2).1.id) := by
  refine ⟨⟨rfl, rfl, rfl, rfl, rfl⟩,
    ⟨rfl, idHead_length h1, padNum_digits 4 (st1 + 1), ?_⟩, ?_, ?_⟩
  · unfold padNum
    simp only [List.length_append, List.length_replicate]
    omega
  · intro hle
    show matchesIdPattern (taskIdChars dt1 (st1 + 1)) = true
    exact matchesIdPattern_taskId h1 (by omega)
  · intro hne heq
    have hd : taskIdChars dt1 (st1 + 1) = taskIdChars dt2 (st2 + 1) :=
      congrArg String.data heq
    have hdrop := congrArg (List.drop 20) hd
    rw [taskIdChars_drop20 _ h1, taskIdChars_drop20 _ h2] at hdrop
    have hv := congrArg charsVal hdrop
    rw [charsVal_padNum, charsVal_padNum] at hv
    omega

/-- C6 counterexample: the 10000th task of a process gets counter 10000,
whose `{:04d}` rendering has five digits, so the id no longer matches
`task-<14 digits>-<4 digits>`. -/
theorem c6_pattern_counterexample :
    (create_task 9999 cNow "fix it" none).2 = 10000 ∧
    matchesIdPattern ((create_task 9999 cNow "fix it" none).1.id.data) = false := by
  exact ⟨rfl, by decide⟩

/-- Witness for C6 at concrete creations with counters 1 and 2. -/
theorem c6_create_task_witness :
    (create_task 0 cNow "add a test" none).1.status = .PENDING ∧
    matchesIdPattern ((create_task 0 cNow "add a test" none).1.id.data) = true ∧
    (create_task 0 cNow "add a test" none).1.id ≠
      (create_task 1 cNow "add a test" none).1.id := by
  have h := c6_create_task_amended 0 1 cNow cNow "add a test" "add a test" none none
    (by decide) (by decide)
  exact ⟨h.1.1, h.2.2.1 (by norm_num), h.2.2.2 (by norm_num)⟩

/-! Retry-lifecycle analysis (C3). -/

/-- Task value after a failed attempt that was re-queued: status QUEUED,
error text stored, retry counter at `j`. -/
def requeued (t : Task) (now : DateTime) (e : String) (j : ℕ) : Task :=
  { t with status := .QUEUED, startedAt := some now, error := some e, retries := j }

/-- Expected task value after `j` failing attempts of a fresh task. -/
def taskAfterFails (t : Task) (now : DateTime) (err : ℕ → String) : ℕ → Task
  | 0 => t
  | j + 1 => requeued t now (err j) (j + 1)

theorem taskAfterFails_taskType (t : Task) (now : DateTime) (err : ℕ → String)
    (j : ℕ) : (taskAfterFails t now err j).taskType = t.taskType := by
  cases j <;> rfl

theorem taskAfterFails_maxRetries (t : Task) (now : DateTime) (err : ℕ → String)
    (j : ℕ) : (taskAfterFails t now err j).maxRetries = t.maxRetries := by
  cases j <;> rfl

theorem taskAfterFails_retries (t : Task) (now : DateTime) (err : ℕ → String)
    (hr0 : t.retries = 0) (j : ℕ) : (taskAfterFails t now err j).retries = j := by
  cases j with
  | zero => exact hr0
  | succ n => rfl

theorem taskAfterFails_status_succ (t : Task) (now : DateTime) (err : ℕ → String)
    (j : ℕ) : (taskAfterFails t now err (j + 1)).status = .QUEUED := rfl

theorem runTrace_append (st : DState) (l1 l2 : List Op) :
    runTrace st (l1 ++ l2) = (runTrace st l1).bind fun s => runTrace s l2 := by
  induction l1 generalizing st with
  | nil => simp [runTrace]
  | cons op rest ih =>
    simp only [List.cons_append, runTrace]
    cases applyOp st op with
    | none => simp
    | some st' => simp [ih]

theorem applyOp_proc_single (st : DState) (now : DateTime) (u : Task)
    (hq : st.queues .GENERAL = [u]) :
    applyOp st (Op.procFrom .GENERAL now) =
      match process_task { st with queues := updQueue st.queues .GENERAL [] } now u with
      | .done _ _ st2 => some st2
      | .blocked => none := by
  simp only [applyOp, dequeue, hq]

theorem c3aux (st0 : DState) (beh : ℕ → HandlerResult) (t : Task) (now : DateTime)
    (err : ℕ → String)
    (hq : st0.queues .GENERAL = [t]) (hh : st0.handlers t.taskType = some beh)
    (hr0 : t.retries = 0) :
    ∀ j, (∀ i, i < j → beh i = .raise (err i)) → j < t.maxRetries →
    ∃ stj, runTrace st0 (List.replicate j (Op.procFrom .GENERAL now)) = some stj ∧
      stj.queues .GENERAL = [taskAfterFails t now err j] ∧
      (∀ qt, qt ≠ .GENERAL → stj.queues qt = st0.queues qt) ∧
      stj.completedTasks = st0.completedTasks ∧
      stj.failedTasks = st0.failedTasks ∧
      stj.handlers = st0.handlers ∧
      stj.repoQueues = st0.repoQueues := by
  intro j
  induction j with
  | zero =>
    intro _ _
    exact ⟨st0, rfl, hq, fun _ _ => rfl, rfl, rfl, rfl, rfl⟩
  | succ j ih =>
    intro hfail hlt
    obtain ⟨stj, hrun, hqj, hoth, hcomp, hfailc, hhand, hrepo⟩ :=
      ih (fun i hi => hfail i (Nat.lt_succ_of_lt hi)) (Nat.lt_of_succ_lt hlt)
    have hh2 : ({ stj with queues := updQueue stj.queues .GENERAL [] } : DState).handlers
        (taskAfterFails t now err j).taskType = some beh := by
      show stj.handlers (taskAfterFails t now err j).taskType = some beh
      rw [taskAfterFails_taskType, hhand]
      exact hh
    have hb2 : beh (taskAfterFails t now err j).retries = .raise (err j) := by
      rw [taskAfterFails_retries t now err hr0 j]
      exact hfail j (Nat.lt_succ_self j)
    have hlt2 : (taskAfterFails t now err j).retries + 1 <
        (taskAfterFails t now err j).maxRetries := by
      rw [taskAfterFails_retries t now err hr0 j, taskAfterFails_maxRetries]
      exact hlt
    have hcap2 : (({ stj with queues := updQueue stj.queues .GENERAL [] } : DState).queues
        .GENERAL).length < sharedMaxsize := by
      show ((updQueue stj.queues .GENERAL []) .GENERAL).length < sharedMaxsize
      simp [updQueue, sharedMaxsize]
    have hproc := process_task_raise_requeue_eq _ now (taskAfterFails t now err j)
      beh (err j) hh2 hb2 hlt2 hcap2
    have htv : ({ taskAfterFails t now err j with
        status := .QUEUED
        startedAt := some now
        error := some (err j)
        retries := (taskAfterFails t now err j).retries + 1 } : Task)
        = taskAfterFails t now err (j + 1) := by
      cases j with
      | zero => simp [taskAfterFails, requeued, hr0]
      | succ n => rfl
    rw [htv] at hproc
    refine ⟨{ stj with queues := updQueue (updQueue stj.queues .GENERAL []) .GENERAL ((updQueue stj.queues .GENERAL []) .GENERAL ++ [taskAfterFails t now err (j + 1)]) }, ?_, ?_, ?_, ?_, ?_, ?_, ?_⟩
    · rw [List.replicate_succ', runTrace_append, hrun, Option.some_bind]
      show runTrace stj [Op.procFrom .GENERAL now] = _
      simp only [runTrace, applyOp_proc_single stj now _ hqj, hproc]
    · simp [updQueue]
    · intro qt hqt
      simp only [updQueue, if_neg hqt]
      exact hoth qt hqt
    · exact hcomp
    · exact hfailc
    · exact hhand
    · exact hrepo

/-- C3: retry lifecycle of `process_task`.  First part: a handler that
raises on its first `k` invocations and then succeeds brings the task to
COMPLETED after `k + 1` worker rounds, provided `k < max_retries`.  Second
part: a handler that always raises leaves the task terminally FAILED with
`retries = max_retries` after exactly `max_retries` rounds, and after every
earlier round the task sits QUEUED on the GENERAL queue (the non-final
re-enqueue).  Third part: a single non-final handler failure re-enqueues
the mutated task, status QUEUED, at the tail of the GENERAL queue. -/
theorem c3_retry_lifecycle :
    (∀ (st0 : DState) (beh : ℕ → HandlerResult) (t : Task) (now : DateTime)
       (err : ℕ → String) (k : ℕ) (r : Option String),
      st0.queues .GENERAL = [t] → st0.handlers t.taskType = some beh →
      t.retries = 0 → (∀ i, i < k → beh i = .raise (err i)) →
      beh k = .ok r → k < t.maxRetries →
      ∃ st' tDone,
        runTrace st0 (List.replicate (k + 1) (Op.procFrom .GENERAL now)) = some st' ∧
        st'.completedTasks = st0.completedTasks ++ [tDone] ∧
        tDone.status = .COMPLETED ∧ tDone.retries = k ∧
        st'.queues .GENERAL = [] ∧ st'.failedTasks = st0.failedTasks) ∧
    (∀ (st0 : DState) (beh : ℕ → HandlerResult) (t : Task) (now : DateTime)
       (err : ℕ → String),
      st0.queues .GENERAL = [t] → st0.handlers t.taskType = some beh →
      t.retries = 0 → (∀ i, beh i = .raise (err i)) → 0 < t.maxRetries →
      (∃ st' tF,
        runTrace st0 (List.replicate t.maxRetries (Op.procFrom .GENERAL now)) = some st' ∧
        st'.failedTasks = st0.failedTasks ++ [tF] ∧
        tF.status = .FAILED ∧ tF.retries = t.maxRetries ∧
        st'.queues .GENERAL = [] ∧ st'.completedTasks = st0.completedTasks) ∧
      (∀ j, 1 ≤ j → j < t.maxRetries →
        ∃ stj tQ,
          runTrace st0 (List.replicate j (Op.procFrom .GENERAL now)) = some stj ∧
          stj.queues .GENERAL = [tQ] ∧ tQ.status = .QUEUED ∧ tQ.retries = j ∧
          stj.failedTasks = st0.failedTasks)) ∧
    (∀ (st : DState) (now : DateTime) (u : Task) (beh : ℕ → HandlerResult) (e : String),
      st.handlers u.taskType = some beh → beh u.retries = .raise e →
      u.retries + 1 < u.maxRetries → (st.queues .GENERAL).length < sharedMaxsize →
      ∃ u' st', process_task st now u = .done false u' st' ∧
        u'.status = .QUEUED ∧ u'.retries = u.retries + 1 ∧
        st'.queues .GENERAL = st.queues .GENERAL ++ [u'] ∧
        st'.failedTasks = st.failedTasks ∧ st'.completedTasks = st.completedTasks) := by
  refine ⟨?_, ?_, ?_⟩
  · -- eventually COMPLETED
    intro st0 beh t now err k r hq hh hr0 hfail hok hklt
    obtain ⟨stj, hrun, hqj, hoth, hcomp, hfailc, hhand, hrepo⟩ :=
      c3aux st0 beh t now err hq hh hr0 k hfail hklt
    have hh2 : ({ stj with queues := updQueue stj.queues .GENERAL [] } : DState).handlers
        (taskAfterFails t now err k).taskType = some beh := by
      show stj.handlers (taskAfterFails t now err k).taskType = some beh
      rw [taskAfterFails_taskType, hhand]
      exact hh
    have hb2 : beh (taskAfterFails t now err k).retries = .ok r := by
      rw [taskAfterFails_retries t now err hr0 k]
      exact hok
    have hproc := process_task_ok_eq _ now (taskAfterFails t now err k) beh r hh2 hb2
    generalize huD : ({ taskAfterFails t now err k with status := TaskStatus.COMPLETED, startedAt := some now, completedAt := some now, result := some (resultStr r) } : Task) = uD at hproc
    refine ⟨{ stj with queues := updQueue stj.queues .GENERAL [], completedTasks := stj.completedTasks ++ [uD] }, uD, ?_, ?_, ?_, ?_, ?_, ?_⟩
    · rw [List.replicate_succ', runTrace_append, hrun, Option.some_bind]
      show runTrace stj [Op.procFrom .GENERAL now] = _
      simp only [runTrace, applyOp_proc_single stj now _ hqj, hproc]
    · exact congrArg (fun l => l ++ [uD]) hcomp
    · rw [← huD]
    · rw [← huD]
      show (taskAfterFails t now err k).retries = k
      exact taskAfterFails_retries t now err hr0 k
    · simp [updQueue]
    · exact hfailc
  · -- always failing
    intro st0 beh t now err hq hh hr0 hfail hM
    constructor
    · have hj : t.maxRetries - 1 < t.maxRetries := by omega
      obtain ⟨stj, hrun, hqj, hoth, hcomp, hfailc, hhand, hrepo⟩ :=
        c3aux st0 beh t now err hq hh hr0 (t.maxRetries - 1) (fun i _ => hfail i) hj
      have hh2 : ({ stj with queues := updQueue stj.queues .GENERAL [] } : DState).handlers
          (taskAfterFails t now err (t.maxRetries - 1)).taskType = some beh := by
        show stj.handlers (taskAfterFails t now err (t.maxRetries - 1)).taskType = some beh
        rw [taskAfterFails_taskType, hhand]
        exact hh
      have hb2 : beh (taskAfterFails t now err (t.maxRetries - 1)).retries =
          .raise (err (t.maxRetries - 1)) := by
        rw [taskAfterFails_retries t now err hr0]
        exact hfail _
      have hge : ¬ (taskAfterFails t now err (t.maxRetries - 1)).retries + 1 <
          (taskAfterFails t now err (t.maxRetries - 1)).maxRetries := by
        rw [taskAfterFails_retries t now err hr0, taskAfterFails_maxRetries]
        omega
      have hproc := process_task_raise_final_eq _ now
        (taskAfterFails t now err (t.maxRetries - 1)) beh (err (t.maxRetries - 1))
        hh2 hb2 hge
      generalize huF : ({ taskAfterFails t now err (t.maxRetries - 1) with status := TaskStatus.FAILED, startedAt := some now, error := some (err (t.maxRetries - 1)), retries := (taskAfterFails t now err (t.maxRetries - 1)).retries + 1 } : Task) = uF at hproc
      refine ⟨{ stj with queues := updQueue stj.queues .GENERAL [], failedTasks := stj.failedTasks ++ [uF] }, uF, ?_, ?_, ?_, ?_, ?_, ?_⟩
      · rw [show t.maxRetries = (t.maxRetries - 1) + 1 by omega, List.replicate_succ',
          runTrace_append, hrun, Option.some_bind]
        show runTrace stj [Op.procFrom .GENERAL now] = _
        simp only [runTrace, applyOp_proc_single stj now _ hqj, hproc]
      · exact congrArg (fun l => l ++ [uF]) hfailc
      · rw [← huF]
      · rw [← huF]
        show (taskAfterFails t now err (t.maxRetries - 1)).retries + 1 = t.maxRetries
        rw [taskAfterFails_retries t now err hr0]
        omega
      · simp [updQueue]
      · exact hcomp
    · intro j hj1 hj2
      obtain ⟨stj, hrun, hqj, hoth, hcomp, hfailc, hhand, hrepo⟩ :=
        c3aux st0 beh t now err hq hh hr0 j (fun i _ => hfail i) hj2
      obtain ⟨n, rfl⟩ : ∃ n, j = n + 1 := ⟨j - 1, by omega⟩
      exact ⟨stj, taskAfterFails t now err (n + 1), hrun, hqj,
        taskAfterFails_status_succ t now err n,
        taskAfterFails_retries t now err hr0 (n + 1), hfailc⟩
  · -- non-final failure re-enqueues as QUEUED onto GENERAL
    intro st now u beh e hh hb hlt hcap
    refine ⟨_, _, process_task_raise_requeue_eq st now u beh e hh hb hlt hcap,
      rfl, rfl, ?_, rfl, rfl⟩
    simp [updQueue]

/-- Handler behavior for the C3 witness: raises once, then succeeds. -/
def c3Beh : ℕ → HandlerResult :=
  fun i => if i = 0 then .raise "boom" else .ok (some "done")

/-- Handler registry for the C3 witness. -/
def c3Handlers : TaskType → Option (ℕ → HandlerResult) :=
  fun tt => if tt = .GENERAL then some c3Beh else none

/-- Dispatcher state for the C3 witness: one GENERAL task queued. -/
def c3St : DState :=
  { initState c3Handlers with queues := updQueue (fun _ => []) .GENERAL [sampleTask] }

/-- Witness for C3: with a handler failing exactly once, two worker rounds
complete the task. -/
theorem c3_retry_lifecycle_witness :
    ∃ st' tDone,
      runTrace c3St (List.replicate 2 (Op.procFrom .GENERAL cNow)) = some st' ∧
      st'.completedTasks = c3St.completedTasks ++ [tDone] ∧
      tDone.status = .COMPLETED ∧ tDone.retries = 1 ∧
      st'.queues .GENERAL = [] ∧ st'.failedTasks = c3St.failedTasks :=
  c3_retry_lifecycle.1 c3St c3Beh sampleTask cNow (fun _ => "boom") 1 (some "done")
    rfl rfl rfl (fun i hi => by interval_cases i; rfl) rfl (by decide)

/-! Queue-statistics bookkeeping analysis (C5). -/

theorem enqueue_shared_eq (st : DState) (t : Task) (qt : QueueType)
    (hlen : (st.queues qt).length < sharedMaxsize) :
    enqueue st t qt none =
      .ret true { st with queues := updQueue st.queues qt (st.queues qt ++ [t]) } := by
  simp only [enqueue, enqShared, if_pos hlen]

theorem enqueue_shared_blocked (st : DState) (t : Task) (qt : QueueType)
    (hlen : ¬ (st.queues qt).length < sharedMaxsize) :
    enqueue st t qt none = .blocked := by
  simp only [enqueue, enqShared, if_neg hlen]

theorem dequeue_nil (st : DState) (qt : QueueType) (hq : st.queues qt = []) :
    dequeue st qt = none := by
  simp only [dequeue, hq]

theorem dequeue_cons (st : DState) (qt : QueueType) (u : Task) (rest : List Task)
    (hq : st.queues qt = u :: rest) :
    dequeue st qt = some (u, { st with queues := updQueue st.queues qt rest }) := by
  simp only [dequeue, hq]

/-- Whether an event is an external enqueue call. -/
def isEnq : Op → Bool
  | .enq _ _ => true
  | .procFrom _ _ => false

/-- Number of external enqueue calls in a trace. -/
def countEnq (ops : List Op) : ℕ :=
  ops.countP isEnq

/-- Number of external enqueue calls targeting a given queue type. -/
def countEnqTo (qt : QueueType) (ops : List Op) : ℕ :=
  ops.countP (fun op =>
    match op with
    | .enq _ q => q == qt
    | .procFrom _ _ => false)

/-- Traces whose explicit enqueues all target the GENERAL queue. -/
def enqToGeneral : Op → Prop
  | .enq _ qt => qt = QueueType.GENERAL
  | .procFrom _ _ => True

/-- Conservation invariant behind the amended C5: every task ever enqueued
is in exactly one of the GENERAL queue, the completed history, or the
failed history (and the histories record consistent statuses). -/
def c5Inv (st : DState) (n : ℕ) : Prop :=
  (∀ qt, qt ≠ QueueType.GENERAL → st.queues qt = []) ∧
  (st.queues .GENERAL).length + st.completedTasks.length + st.failedTasks.length = n ∧
  (∀ u ∈ st.completedTasks, u.status = .COMPLETED) ∧
  (∀ u ∈ st.failedTasks, u.status = .FAILED)

theorem c5_step (st : DState) (op : Op) (st' : DState) (n : ℕ)
    (hop : enqToGeneral op) (happ : applyOp st op = some st') (hinv : c5Inv st n) :
    c5Inv st' (n + (if isEnq op then 1 else 0)) := by
  obtain ⟨hempty, hcount, hcomp, hfail⟩ := hinv
  cases op with
  | enq t qt =>
    have hqt : qt = QueueType.GENERAL := hop
    subst hqt
    by_cases hlen : (st.queues .GENERAL).length < sharedMaxsize
    · rw [show applyOp st (Op.enq t .GENERAL) = some { st with queues := updQueue st.queues .GENERAL (st.queues .GENERAL ++ [t]) } by simp only [applyOp, enqueue_shared_eq st t _ hlen]] at happ
      obtain rfl := Option.some.inj happ
      refine ⟨?_, ?_, hcomp, hfail⟩
      · intro qt hqt
        simp only [updQueue, if_neg hqt]
        exact hempty qt hqt
      · simp [updQueue, isEnq]
        omega
    · rw [show applyOp st (Op.enq t .GENERAL) = none by
        simp only [applyOp, enqueue_shared_blocked st t _ hlen]] at happ
      exact absurd happ (by simp)
  | procFrom qt now =>
    simp only [isEnq, if_neg (by simp : ¬ false = true), Nat.add_zero]
    by_cases hqt : qt = QueueType.GENERAL
    · subst hqt
      cases hq : st.queues .GENERAL with
      | nil =>
        rw [show applyOp st (Op.procFrom .GENERAL now) = some st by
          simp only [applyOp, dequeue_nil st _ hq]] at happ
        obtain rfl := Option.some.inj happ
        exact ⟨hempty, hcount, hcomp, hfail⟩
      | cons u rest =>
        rw [show applyOp st (Op.procFrom .GENERAL now) =
            (match process_task { st with queues := updQueue st.queues .GENERAL rest } now u with
             | .done _ _ st2 => some st2
             | .blocked => none) by
          simp only [applyOp, dequeue_cons st _ u rest hq]] at happ
        have hlen2 : ((updQueue st.queues .GENERAL rest) .GENERAL).length + 1 =
            (st.queues .GENERAL).length := by
          simp [updQueue, hq]
        cases hh : st.handlers u.taskType with
        | none =>
          have hh2 : ({ st with queues := updQueue st.queues .GENERAL rest } : DState).handlers
              u.taskType = none := hh
          rw [process_task_no_handler_eq _ now u hh2] at happ
          obtain rfl := Option.some.inj happ
          refine ⟨?_, ?_, hcomp, ?_⟩
          · intro qt2 hqt2
            show updQueue st.queues .GENERAL rest qt2 = []
            simp only [updQueue, if_neg hqt2]
            exact hempty qt2 hqt2
          · show ((updQueue st.queues .GENERAL rest) .GENERAL).length +
              st.completedTasks.length + (st.failedTasks ++ [_]).length = n
            simp [updQueue, hq] at hcount ⊢
            omega
          · intro v hv
            rcases List.mem_append.mp hv with h | h
            · exact hfail v h
            · simp only [List.mem_singleton] at h
              subst h
              rfl
        | some beh =>
          have hh2 : ({ st with queues := updQueue st.queues .GENERAL rest } : DState).handlers
              u.taskType = some beh := hh
          cases hb : beh u.retries with
          | ok r =>
            rw [process_task_ok_eq _ now u beh r hh2 hb] at happ
            obtain rfl := Option.some.inj happ
            refine ⟨?_, ?_, ?_, hfail⟩
            · intro qt2 hqt2
              show updQueue st.queues .GENERAL rest qt2 = []
              simp only [updQueue, if_neg hqt2]
              exact hempty qt2 hqt2
            · show ((updQueue st.queues .GENERAL rest) .GENERAL).length +
                (st.completedTasks ++ [_]).length + st.failedTasks.length = n
              simp [updQueue, hq] at hcount ⊢
              omega
            · intro v hv
              rcases List.mem_append.mp hv with h | h
              · exact hcomp v h
              · simp only [List.mem_singleton] at h
                subst h
                rfl
          | raise e =>
            by_cases hlt : u.retries + 1 < u.maxRetries
            · by_cases hcap : ((updQueue st.queues .GENERAL rest) .GENERAL).length <
                  sharedMaxsize
              · have hcap2 : (({ st with queues := updQueue st.queues .GENERAL rest } : DState).queues
                    .GENERAL).length < sharedMaxsize := hcap
                rw [process_task_raise_requeue_eq _ now u beh e hh2 hb hlt hcap2] at happ
                obtain rfl := Option.some.inj happ
                refine ⟨?_, ?_, hcomp, hfail⟩
                · intro qt2 hqt2
                  show updQueue (updQueue st.queues .GENERAL rest) .GENERAL _ qt2 = []
                  simp only [updQueue, if_neg hqt2]
                  exact hempty qt2 hqt2
                · show (updQueue (updQueue st.queues .GENERAL rest) .GENERAL _ .GENERAL).length
                    + st.completedTasks.length + st.failedTasks.length = n
                  simp [updQueue, hq] at hcount ⊢
                  omega
              · have hcap2 : ¬ (({ st with queues := updQueue st.queues .GENERAL rest } : DState).queues
                    .GENERAL).length < sharedMaxsize := hcap
                rw [process_task_raise_blocked_eq _ now u beh e hh2 hb hlt hcap2] at happ
                exact absurd happ (by simp)
            · rw [process_task_raise_final_eq _ now u beh e hh2 hb hlt] at happ
              obtain rfl := Option.some.inj happ
              refine ⟨?_, ?_, hcomp, ?_⟩
              · intro qt2 hqt2
                show updQueue st.queues .GENERAL rest qt2 = []
                simp only [updQueue, if_neg hqt2]
                exact hempty qt2 hqt2
              · show ((updQueue st.queues .GENERAL rest) .GENERAL).length +
                  st.completedTasks.length + (st.failedTasks ++ [_]).length = n
                simp [updQueue, hq] at hcount ⊢
                omega
              · intro v hv
                rcases List.mem_append.mp hv with h | h
                · exact hfail v h
                · simp only [List.mem_singleton] at h
                  subst h
                  rfl
    · rw [show applyOp st (Op.procFrom qt now) = some st by
        simp only [applyOp, dequeue_nil st qt (hempty qt hqt)]] at happ
      obtain rfl := Option.some.inj happ
      exact ⟨hempty, hcount, hcomp, hfail⟩

theorem c5_run : ∀ (ops : List Op) (st : DState) (n : ℕ) (st' : DState),
    (∀ op ∈ ops, enqToGeneral op) → runTrace st ops = some st' → c5Inv st n →
    c5Inv st' (n + countEnq ops) := by
  intro ops
  induction ops with
  | nil =>
    intro st n st' _ hrun hinv
    obtain rfl : st = st' := Option.some.inj hrun
    simpa [countEnq] using hinv
  | cons op rest ih =>
    intro st n st' hops hrun hinv
    cases happ : applyOp st op with
    | none => rw [runTrace, happ] at hrun; exact absurd hrun (by simp)
    | some st1 =>
      rw [runTrace, happ] at hrun
      have h1 := c5_step st op st1 n (hops op (List.mem_cons_self op rest)) happ hinv
      have h2 := ih st1 (n + (if isEnq op then 1 else 0)) st'
        (fun o ho => hops o (List.mem_cons_of_mem op ho)) hrun h1
      have hcnt : (n + (if isEnq op then 1 else 0)) + countEnq rest
          = n + countEnq (op :: rest) := by
        simp only [countEnq, List.countP_cons]
        by_cases h : isEnq op = true
        · simp [h]
          omega
        · simp [h]
      rw [← hcnt]
      exact h2

/-- C5 (amended): the statistics of a queue type combine that queue's live
size with the dispatcher-wide completed/failed histories, so
`completed + failed + pending` equals the number of tasks ever enqueued to
the queue type only when every enqueue targeted that (GENERAL) queue; the
equality then holds for any trace of enqueues and worker rounds starting
from a fresh dispatcher with any handler registry. -/
theorem c5_queue_stats_amended (handlers : TaskType → Option (ℕ → HandlerResult))
    (ops : List Op) (st' : DState)
    (hops : ∀ op ∈ ops, enqToGeneral op)
    (hrun : runTrace (initState handlers) ops = some st') :
    (get_queue_stats st' .GENERAL).completedTasks +
      (get_queue_stats st' .GENERAL).failedTasks +
      (get_queue_stats st' .GENERAL).pendingTasks = countEnq ops := by
  have hinv := c5_run ops (initState handlers) 0 st' hops hrun
    ⟨fun _ _ => rfl, rfl, by simp [initState], by simp [initState]⟩
  obtain ⟨hempty, hcount, hcomp, hfail⟩ := hinv
  have hc : st'.completedTasks.filter (fun u => u.status == TaskStatus.COMPLETED)
      = st'.completedTasks :=
    List.filter_eq_self.mpr (fun u hu => by simp [hcomp u hu])
  have hf : st'.failedTasks.filter (fun u => u.status == TaskStatus.FAILED)
      = st'.failedTasks :=
    List.filter_eq_self.mpr (fun u hu => by simp [hfail u hu])
  show (st'.completedTasks.filter (fun u => u.status == TaskStatus.COMPLETED)).length
      + (st'.failedTasks.filter (fun u => u.status == TaskStatus.FAILED)).length
      + (st'.queues .GENERAL).length = countEnq ops
  rw [hc, hf]
  omega

/-- Handler registry for the C5 examples: everything succeeds. -/
def c5Handlers : TaskType → Option (ℕ → HandlerResult) :=
  fun _ => some (fun _ => .ok none)

/-- Second concrete task, distinct from `sampleTask`. -/
def c5TaskB : Task :=
  { sampleTask with id := "task-20260101000000-0002" }

/-- Counterexample trace for C5: one task through GENERAL, one through
CRITICAL. -/
def c5Ops : List Op :=
  [.enq sampleTask .GENERAL, .procFrom .GENERAL cNow,
   .enq c5TaskB .CRITICAL, .procFrom .CRITICAL cNow]

/-- C5 counterexample: after completing one GENERAL task and one CRITICAL
task, the GENERAL stats report completed+failed+pending = 2 (the histories
are dispatcher-wide), while only one task was ever enqueued to GENERAL. -/
theorem c5_stats_counterexample :
    (runTrace (initState c5Handlers) c5Ops).map (fun st =>
      (get_queue_stats st .GENERAL).completedTasks +
      (get_queue_stats st .GENERAL).failedTasks +
      (get_queue_stats st .GENERAL).pendingTasks) = some 2 ∧
    countEnqTo .GENERAL c5Ops = 1 ∧ (2 : ℕ) ≠ 1 := by
  refine ⟨rfl, rfl, by norm_num⟩

/-- Witness for C5 (amended) on a single-queue trace. -/
theorem c5_queue_stats_amended_witness :
    ∃ st', runTrace (initState c5Handlers)
        [Op.enq sampleTask .GENERAL, Op.procFrom .GENERAL cNow] = some st' ∧
      (get_queue_stats st' .GENERAL).completedTasks +
        (get_queue_stats st' .GENERAL).failedTasks +
        (get_queue_stats st' .GENERAL).pendingTasks
        = countEnq [Op.enq sampleTask .GENERAL, Op.procFrom .GENERAL cNow] := by
  obtain ⟨st', hst⟩ : ∃ st', runTrace (initState c5Handlers)
      [Op.enq sampleTask .GENERAL, Op.procFrom .GENERAL cNow] = some st' := ⟨_, rfl⟩
  refine ⟨st', hst, c5_queue_stats_amended c5Handlers _ st' ?_ hst⟩
  intro op hop
  rcases List.mem_cons.mp hop with h | h
  · subst h; exact rfl
  · rcases List.mem_cons.mp h with h2 | h2
    · subst h2; trivial
    · exact absurd h2 (List.not_mem_nil op)

/-! Peek / drain-reinsert analysis (C8). -/

theorem drainLoop_eq (limit : ℕ) : ∀ (q tmp : List Task), tmp.length ≤ limit →
    drainLoop limit q tmp
      = (q.drop (limit - tmp.length), tmp ++ q.take (limit - tmp.length)) := by
  intro q
  induction q with
  | nil => intro tmp _; simp [drainLoop]
  | cons t rest ih =>
    intro tmp h
    simp only [drainLoop]
    by_cases hlt : tmp.length < limit
    · rw [if_pos hlt, ih (tmp ++ [t]) (by simp; omega)]
      have hk : limit - tmp.length = (limit - (tmp.length + 1)) + 1 := by omega
      simp only [List.length_append, List.length_singleton]
      rw [hk, List.drop_succ_cons, List.take_succ_cons]
      simp [List.append_assoc]
    · rw [if_neg hlt]
      have h0 : limit - tmp.length = 0 := by omega
      simp [h0]

theorem gptGo_frame (limit : ℕ) : ∀ (qts : List QueueType) (st : DState)
    (acc : List Task),
    (gptGo limit st acc qts).2.repoQueues = st.repoQueues ∧
    (gptGo limit st acc qts).2.completedTasks = st.completedTasks ∧
    (gptGo limit st acc qts).2.failedTasks = st.failedTasks ∧
    (gptGo limit st acc qts).2.handlers = st.handlers := by
  intro qts
  induction qts with
  | nil => intro st acc; exact ⟨rfl, rfl, rfl, rfl⟩
  | cons q0 rest ih =>
    intro st acc
    simp only [gptGo]
    exact ih _ _

theorem gptGo_queues (limit : ℕ) : ∀ (qts : List QueueType) (st : DState)
    (acc : List Task) (qt : QueueType), qts.Nodup →
    (gptGo limit st acc qts).2.queues qt =
      (if qt ∈ qts then (st.queues qt).drop limit ++ (st.queues qt).take limit
       else st.queues qt) := by
  intro qts
  induction qts with
  | nil =>
    intro st acc qt _
    rw [if_neg (List.not_mem_nil qt)]
    rfl
  | cons q0 rest ih =>
    intro st acc qt hnd
    have hnd2 := List.nodup_cons.mp hnd
    simp only [gptGo]
    rw [drainLoop_eq limit (st.queues q0) [] (by simp)]
    rw [ih _ _ qt hnd2.2]
    by_cases h0 : qt = q0
    · subst h0
      rw [if_neg hnd2.1, if_pos (List.mem_cons_self qt rest)]
      simp [updQueue]
    · by_cases hr : qt ∈ rest
      · rw [if_pos hr, if_pos (List.mem_cons_of_mem q0 hr)]
        simp [updQueue, if_neg h0]
      · rw [if_neg hr, if_neg (by simp [h0, hr])]
        simp [updQueue, if_neg h0]

theorem gptGo_sub (limit : ℕ) : ∀ (qts : List QueueType) (st : DState)
    (acc : List Task) (x : Task), x ∈ (gptGo limit st acc qts).1 →
    x ∈ acc ∨ ∃ qt, x ∈ st.queues qt := by
  intro qts
  induction qts with
  | nil => intro st acc x hx; exact Or.inl hx
  | cons q0 rest ih =>
    intro st acc x hx
    simp only [gptGo] at hx
    rw [drainLoop_eq limit (st.queues q0) [] (by simp)] at hx
    rcases ih _ _ x hx with h | ⟨qt, hqt⟩
    · rcases List.mem_append.mp h with h1 | h1
      · exact Or.inl h1
      · simp only [List.nil_append] at h1
        exact Or.inr ⟨q0, List.take_subset _ _ h1⟩
    · by_cases h0 : qt = q0
      · subst h0
        simp only [updQueue, if_pos rfl] at hqt
        rcases List.mem_append.mp hqt with h1 | h1
        · exact Or.inr ⟨qt, List.drop_subset _ _ h1⟩
        · simp only [List.nil_append] at h1
          exact Or.inr ⟨qt, List.take_subset _ _ h1⟩
      · simp only [updQueue, if_neg h0] at hqt
        exact Or.inr ⟨qt, hqt⟩

/-- C8 (amended): `get_pending_tasks` returns at most `limit` tasks and
leaves every queue with the same tasks as a multiset; a queue holding at
most `limit` tasks is left exactly as it was, but a longer queue is
rotated — its first `limit` tasks are moved to the back — so FIFO order is
not preserved in general.  Histories and repository queues are untouched.
(The source spells the put-back `await q.put(...)` inside a non-async
`def`, a slip embedded with its evident intent.) -/
theorem c8_get_pending_amended (st : DState) (limit : ℕ) :
    ((get_pending_tasks st limit).1).length ≤ limit ∧
    (∀ qt, (get_pending_tasks st limit).2.queues qt
        = (st.queues qt).drop limit ++ (st.queues qt).take limit) ∧
    (∀ qt, ((get_pending_tasks st limit).2.queues qt).Perm (st.queues qt)) ∧
    (∀ qt, (st.queues qt).length ≤ limit →
      (get_pending_tasks st limit).2.queues qt = st.queues qt) ∧
    (get_pending_tasks st limit).2.repoQueues = st.repoQueues ∧
    (get_pending_tasks st limit).2.completedTasks = st.completedTasks ∧
    (get_pending_tasks st limit).2.failedTasks = st.failedTasks := by
  have hq : ∀ qt, (get_pending_tasks st limit).2.queues qt
      = (st.queues qt).drop limit ++ (st.queues qt).take limit := by
    intro qt
    show (gptGo limit st [] allQueueTypes).2.queues qt = _
    rw [gptGo_queues limit allQueueTypes st [] qt (by decide)]
    rw [if_pos (by cases qt <;> decide)]
  have hframe := gptGo_frame limit allQueueTypes st []
  refine ⟨?_, hq, ?_, ?_, hframe.1, hframe.2.1, hframe.2.2.1⟩
  · exact List.length_take_le _ _
  · intro qt
    rw [hq qt]
    have h2 : ((st.queues qt).drop limit ++ (st.queues qt).take limit).Perm
        ((st.queues qt).take limit ++ (st.queues qt).drop limit) :=
      List.perm_append_comm
    rw [List.take_append_drop] at h2
    exact h2
  · intro qt h
    rw [hq qt, List.drop_eq_nil_of_le h, List.take_of_length_le h, List.nil_append]

/-- Dispatcher state for the C8 counterexample: two GENERAL tasks. -/
def c8St : DState :=
  { initState (fun _ => none) with
    queues := updQueue (fun _ => []) .GENERAL [sampleTask, c5TaskB] }

/-- C8 counterexample: with two queued tasks and `limit = 1`, the call
drains only the first task and re-appends it behind the second, so the
queue order flips from `[a, b]` to `[b, a]`. -/
theorem c8_order_counterexample :
    c8St.queues .GENERAL = [sampleTask, c5TaskB] ∧
    (get_pending_tasks c8St 1).2.queues .GENERAL = [c5TaskB, sampleTask] ∧
    (get_pending_tasks c8St 1).2.queues .GENERAL ≠ c8St.queues .GENERAL := by
  refine ⟨rfl, by decide, by decide⟩

/-- Witness for C8 at a concrete state and limit. -/
theorem c8_get_pending_witness :
    ((get_pending_tasks c8St 1).1).length ≤ 1 ∧
    (get_pending_tasks c8St 1).2.repoQueues = c8St.repoQueues :=
  ⟨(c8_get_pending_amended c8St 1).1, (c8_get_pending_amended c8St 1).2.2.2.2.1⟩

/-! Repo-queue starvation analysis (C10). -/

/-- The dequeuing operations a consumer can perform: a direct `dequeue`, a
`get_next_task` priority scan, a `get_pending_tasks` peek, and a worker
round (`dequeue` + `process_task`), with the tasks each returns. -/
inductive WOp
  | deq (qt : QueueType)
  | next (priority : Option (List QueueType))
  | pend (limit : ℕ)
  | proc (qt : QueueType) (now : DateTime)

/-- Effect of one dequeuing operation together with every task it hands out
(for `proc`, both the dequeued task and its processed successor). -/
def applyW (st : DState) : WOp → Option (DState × List Task)
  | .deq qt =>
    match dequeue st qt with
    | none => some (st, [])
    | some (t, st') => some (st', [t])
  | .next p =>
    let r := get_next_task st p
    some (r.2, match r.1 with | some t => [t] | none => [])
  | .pend lim =>
    let r := get_pending_tasks st lim
    some (r.2, r.1)
  | .proc qt now =>
    match dequeue st qt with
    | none => some (st, [])
    | some (t, st') =>
      match process_task st' now t with
      | .done _ t' st2 => some (st2, [t, t'])
      | .blocked => none

/-- Run a sequence of dequeuing operations, collecting every task returned. -/
def runW : DState → List WOp → Option (DState × List Task)
  | st, [] => some (st, [])
  | st, op :: rest =>
    match applyW st op with
    | none => none
    | some (st1, out) =>
      match runW st1 rest with
      | none => none
      | some (st2, outs) => some (st2, out ++ outs)

theorem dequeue_spec (st : DState) (qt : QueueType) (t : Task) (st' : DState)
    (h : dequeue st qt = some (t, st')) :
    t ∈ st.queues qt ∧ st'.repoQueues = st.repoQueues ∧
    (∀ qt2 x, x ∈ st'.queues qt2 → x ∈ st.queues qt2) ∧
    st'.handlers = st.handlers := by
  cases hq : st.queues qt with
  | nil => rw [dequeue_nil st qt hq] at h; exact absurd h (by simp)
  | cons u rest =>
    rw [dequeue_cons st qt u rest hq] at h
    simp only [Option.some.injEq, Prod.mk.injEq] at h
    obtain ⟨rfl, rfl⟩ := h
    refine ⟨hq ▸ List.mem_cons_self u rest, rfl, ?_, rfl⟩
    intro qt2 x hx
    by_cases h2 : qt2 = qt
    · subst h2
      simp only [updQueue, if_pos rfl] at hx
      rw [hq]
      exact List.mem_cons_of_mem u hx
    · simpa only [updQueue, if_neg h2] using hx

theorem getNextGo_spec : ∀ (prio : List QueueType) (st : DState),
    (getNextGo st prio).2.repoQueues = st.repoQueues ∧
    (∀ qt x, x ∈ (getNextGo st prio).2.queues qt → x ∈ st.queues qt) ∧
    (∀ t, (getNextGo st prio).1 = some t → ∃ qt, t ∈ st.queues qt) := by
  intro prio
  induction prio with
  | nil =>
    intro st
    exact ⟨rfl, fun _ _ h => h, fun t h => absurd h (by simp [getNextGo])⟩
  | cons q0 rest ih =>
    intro st
    simp only [getNextGo]
    cases hd : dequeue st q0 with
    | none => exact ih st
    | some pr =>
      obtain ⟨t0, st2⟩ := pr
      obtain ⟨hmem, hrepo, hsub, _⟩ := dequeue_spec st q0 t0 st2 hd
      refine ⟨hrepo, hsub, ?_⟩
      intro t ht
      simp only [Option.some.injEq] at ht
      subst ht
      exact ⟨q0, hmem⟩

theorem get_next_task_spec (st : DState) (p : Option (List QueueType)) :
    (get_next_task st p).2.repoQueues = st.repoQueues ∧
    (∀ qt x, x ∈ (get_next_task st p).2.queues qt → x ∈ st.queues qt) ∧
    (∀ t, (get_next_task st p).1 = some t → ∃ qt, t ∈ st.queues qt) :=
  getNextGo_spec _ st

theorem get_pending_tasks_spec (st : DState) (lim : ℕ) :
    (get_pending_tasks st lim).2.repoQueues = st.repoQueues ∧
    (∀ qt x, x ∈ (get_pending_tasks st lim).2.queues qt → x ∈ st.queues qt) ∧
    (∀ x, x ∈ (get_pending_tasks st lim).1 → ∃ qt, x ∈ st.queues qt) := by
  obtain ⟨_, hrot, _, _, hrepo, _, _⟩ := c8_get_pending_amended st lim
  refine ⟨hrepo, ?_, ?_⟩
  · intro qt x hx
    rw [hrot qt] at hx
    rcases List.mem_append.mp hx with h | h
    · exact List.drop_subset _ _ h
    · exact List.take_subset _ _ h
  · intro x hx
    have hx2 : x ∈ (gptGo lim st [] allQueueTypes).1 :=
      List.take_subset _ _ hx
    rcases gptGo_sub lim allQueueTypes st [] x hx2 with h | h
    · exact absurd h (List.not_mem_nil x)
    · exact h

theorem process_task_frame (st : DState) (now : DateTime) (u : Task) (b : Bool)
    (u' : Task) (st' : DState) (h : process_task st now u = .done b u' st') :
    u'.id = u.id ∧ st'.repoQueues = st.repoQueues ∧
    (∀ qt x, x ∈ st'.queues qt → x ∈ st.queues qt ∨ x = u') := by
  cases hh : st.handlers u.taskType with
  | none =>
    rw [process_task_no_handler_eq st now u hh] at h
    injection h with h1 h2 h3
    subst h2
    subst h3
    exact ⟨rfl, rfl, fun _ _ hx => Or.inl hx⟩
  | some beh =>
    cases hb : beh u.retries with
    | ok r =>
      rw [process_task_ok_eq st now u beh r hh hb] at h
      injection h with h1 h2 h3
      subst h2
      subst h3
      exact ⟨rfl, rfl, fun _ _ hx => Or.inl hx⟩
    | raise e =>
      by_cases hlt : u.retries + 1 < u.maxRetries
      · by_cases hcap : (st.queues .GENERAL).length < sharedMaxsize
        · rw [process_task_raise_requeue_eq st now u beh e hh hb hlt hcap] at h
          injection h with h1 h2 h3
          subst h2
          subst h3
          refine ⟨rfl, rfl, ?_⟩
          intro qt x hx
          by_cases hg : qt = QueueType.GENERAL
          · subst hg
            simp only [updQueue, if_pos rfl] at hx
            rcases List.mem_append.mp hx with h4 | h4
            · exact Or.inl h4
            · simp only [List.mem_singleton] at h4
              exact Or.inr h4
          · simp only [updQueue, if_neg hg] at hx
            exact Or.inl hx
        · rw [process_task_raise_blocked_eq st now u beh e hh hb hlt hcap] at h
          exact absurd h (by simp)
      · rw [process_task_raise_final_eq st now u beh e hh hb hlt] at h
        injection h with h1 h2 h3
        subst h2
        subst h3
        exact ⟨rfl, rfl, fun _ _ hx => Or.inl hx⟩

/-- A task id that occurs nowhere in the shared queues. -/
def noIdIn (st : DState) (tid : String) : Prop :=
  ∀ qt x, x ∈ st.queues qt → x.id ≠ tid

theorem applyW_inv (st : DState) (op : WOp) (st' : DState) (out : List Task)
    (tid : String) (h : applyW st op = some (st', out)) (hinv : noIdIn st tid) :
    noIdIn st' tid ∧ (∀ x ∈ out, x.id ≠ tid) ∧ st'.repoQueues = st.repoQueues := by
  cases op with
  | deq qt =>
    simp only [applyW] at h
    cases hd : dequeue st qt with
    | none =>
      rw [hd] at h
      simp only [Option.some.injEq, Prod.mk.injEq] at h
      obtain ⟨rfl, rfl⟩ := h
      exact ⟨hinv, by simp, rfl⟩
    | some pr =>
      obtain ⟨t0, st2⟩ := pr
      rw [hd] at h
      dsimp only at h
      obtain ⟨hmem, hrepo, hsub, _⟩ := dequeue_spec st qt t0 st2 hd
      simp only [Option.some.injEq, Prod.mk.injEq] at h
      obtain ⟨rfl, rfl⟩ := h
      refine ⟨fun qt2 x hx => hinv qt2 x (hsub qt2 x hx), ?_, hrepo⟩
      intro x hx
      simp only [List.mem_singleton] at hx
      subst hx
      exact hinv qt x hmem
  | next p =>
    simp only [applyW] at h
    simp only [Option.some.injEq, Prod.mk.injEq] at h
    obtain ⟨rfl, rfl⟩ := h
    obtain ⟨hrepo, hsub, hout⟩ := get_next_task_spec st p
    refine ⟨fun qt2 x hx => hinv qt2 x (hsub qt2 x hx), ?_, hrepo⟩
    intro x hx
    cases hr : (get_next_task st p).1 with
    | none => rw [hr] at hx; exact absurd hx (by simp)
    | some t0 =>
      rw [hr] at hx
      simp only [List.mem_singleton] at hx
      subst hx
      obtain ⟨qt, hq⟩ := hout x hr
      exact hinv qt x hq
  | pend lim =>
    simp only [applyW] at h
    simp only [Option.some.injEq, Prod.mk.injEq] at h
    obtain ⟨rfl, rfl⟩ := h
    obtain ⟨hrepo, hsub, hout⟩ := get_pending_tasks_spec st lim
    refine ⟨fun qt2 x hx => hinv qt2 x (hsub qt2 x hx), ?_, hrepo⟩
    intro x hx
    obtain ⟨qt, hq⟩ := hout x hx
    exact hinv qt x hq
  | proc qt now =>
    simp only [applyW] at h
    cases hd : dequeue st qt with
    | none =>
      rw [hd] at h
      simp only [Option.some.injEq, Prod.mk.injEq] at h
      obtain ⟨rfl, rfl⟩ := h
      exact ⟨hinv, by simp, rfl⟩
    | some pr =>
      obtain ⟨t0, st2⟩ := pr
      rw [hd] at h
      dsimp only at h
      obtain ⟨hmem, hrepo2, hsub2, _⟩ := dequeue_spec st qt t0 st2 hd
      cases hp : process_task st2 now t0 with
      | blocked => rw [hp] at h; exact absurd h (by simp)
      | done b t' st3 =>
        rw [hp] at h
        obtain ⟨hid, hrepo3, hsub3⟩ := process_task_frame st2 now t0 b t' st3 hp
        simp only [Option.some.injEq, Prod.mk.injEq] at h
        obtain ⟨rfl, rfl⟩ := h
        have ht0 : t0.id ≠ tid := hinv qt t0 hmem
        have ht' : t'.id ≠ tid := by rw [hid]; exact ht0
        refine ⟨?_, ?_, hrepo3.trans hrepo2⟩
        · intro qt2 x hx
          rcases hsub3 qt2 x hx with h4 | h4
          · exact hinv qt2 x (hsub2 qt2 x h4)
          · subst h4; exact ht'
        · intro x hx
          rcases List.mem_cons.mp hx with h4 | h4
          · subst h4; exact ht0
          · simp only [List.mem_singleton] at h4
            subst h4; exact ht'

theorem runW_inv : ∀ (ops : List WOp) (st st' : DState) (outs : List Task)
    (tid : String), runW st ops = some (st', outs) → noIdIn st tid →
    noIdIn st' tid ∧ (∀ x ∈ outs, x.id ≠ tid) ∧ st'.repoQueues = st.repoQueues := by
  intro ops
  induction ops with
  | nil =>
    intro st st' outs tid hrun hinv
    simp only [runW, Option.some.injEq, Prod.mk.injEq] at hrun
    obtain ⟨rfl, rfl⟩ := hrun
    exact ⟨hinv, by simp, rfl⟩
  | cons op rest ih =>
    intro st st' outs tid hrun hinv
    simp only [runW] at hrun
    cases ha : applyW st op with
    | none => rw [ha] at hrun; exact absurd hrun (by simp)
    | some pr =>
      obtain ⟨st1, out⟩ := pr
      rw [ha] at hrun
      dsimp only at hrun
      cases hr : runW st1 rest with
      | none => rw [hr] at hrun; exact absurd hrun (by simp)
      | some pr2 =>
        obtain ⟨st2, outs2⟩ := pr2
        rw [hr] at hrun
        obtain ⟨hinv1, hout1, hrepo1⟩ := applyW_inv st op st1 out tid ha hinv
        obtain ⟨hinv2, hout2, hrepo2⟩ := ih st1 st2 outs2 tid hr hinv1
        simp only [Option.some.injEq, Prod.mk.injEq] at hrun
        obtain ⟨rfl, rfl⟩ := hrun
        refine ⟨hinv2, ?_, hrepo2.trans hrepo1⟩
        intro x hx
        rcases List.mem_append.mp hx with h4 | h4
        · exact hout1 x h4
        · exact hout2 x h4

/-- C10: a task parked in a per-repository queue is starved.  `dequeue`,
`get_next_task`, `get_pending_tasks`, and worker rounds read only the
shared per-QueueType queues and never touch `repo_queues`, so across any
sequence of such operations the repository queue (and the task in it) is
unchanged, and no returned or processed task carries the parked task's
id. -/
theorem c10_repo_tasks_starved (st : DState) (r : String) (q : List Task)
    (t : Task) (ops : List WOp) (st' : DState) (outs : List Task)
    (hrq : getRepoQ st.repoQueues r = some q) (hmem : t ∈ q)
    (hshared : ∀ qt u, u ∈ st.queues qt → u.id ≠ t.id)
    (hrun : runW st ops = some (st', outs)) :
    getRepoQ st'.repoQueues r = some q ∧ t ∈ q ∧
    (∀ u ∈ outs, u.id ≠ t.id) ∧
    (∀ qt u, u ∈ st'.queues qt → u.id ≠ t.id) := by
  have h := runW_inv ops st st' outs t.id hrun (fun qt x hx => hshared qt x hx)
  refine ⟨?_, hmem, h.2.1, h.1⟩
  rw [h.2.2]
  exact hrq

/-- Parked repo-scoped task for the C10 witness. -/
def c10TaskR : Task :=
  { sampleTask with id := "task-20260101000000-0009" }

/-- Dispatcher state for the C10 witness: one task in the repo queue of
"r1", one unrelated task in GENERAL. -/
def c10St : DState :=
  { initState (fun _ => none) with
    queues := updQueue (fun _ => []) .GENERAL [c5TaskB]
    repoQueues := [("r1", [c10TaskR])] }

/-- Dequeuing-operation trace for the C10 witness. -/
def c10Ops : List WOp :=
  [.deq .GENERAL, .next none, .pend 5, .proc .GENERAL cNow]

/-- Witness for C10 at a concrete state and operation trace. -/
theorem c10_repo_tasks_starved_witness :
    ∃ st' outs, runW c10St c10Ops = some (st', outs) ∧
      getRepoQ st'.repoQueues "r1" = some [c10TaskR] ∧
      (∀ u ∈ outs, u.id ≠ c10TaskR.id) := by
  obtain ⟨st', outs, hrun⟩ : ∃ st' outs, runW c10St c10Ops = some (st', outs) :=
    ⟨_, _, rfl⟩
  have h := c10_repo_tasks_starved c10St "r1" [c10TaskR] c10TaskR c10Ops st' outs
    rfl (List.mem_singleton.mpr rfl) (by decide) hrun
  exact ⟨st', outs, hrun, h.1, h.2.2.1⟩

end ProjectAgent
